import Mathlib

/-!
A shallow embedding of the TairHash module source (src/src/tairhash.c): a hash
whose fields each carry an absolute millisecond expire (0 = never expires) and
a version counter, together with the per-key expiry index, the field commands,
passive/active expiration and the RDB snapshot round trip.

The field store and the ordered expiry index are external collaborators of the
source file (the m_dict / m_zsl utilities and the sort/slab/scan algorithm
headers are not part of this source tree); they are modelled here from the
specification, as association lists and ordered pair lists.  Every command
body is translated from tairhash.c, with command-argument parsing (excluded
by the specification) replaced by already-parsed option records.
-/

set_option maxHeartbeats 1000000

namespace TairHash

/-- A field's stored record (struct TairHashVal): value bytes, version and the
absolute expire time in milliseconds, with 0 meaning "never expires". -/
structure TairHashVal where
  value : String
  version : Int
  expire : Int
  deriving Repr, DecidableEq

/-- The per-key field store (tair_hash_obj->hash), modelled as an association
list from field name to stored record. -/
abbrev FieldStore := List (String × TairHashVal)

/-- Lookup in the field store (m_dictFind / m_dictFetchValue). -/
def hget : FieldStore → String → Option TairHashVal
  | [], _ => none
  | e :: rest, f => if e.1 = f then some e.2 else hget rest f

/-- Remove a field from the store (m_dictDelete). -/
def hdel : FieldStore → String → FieldStore
  | [], _ => []
  | e :: rest, f => if e.1 = f then hdel rest f else e :: hdel rest f

/-- Replace the record of an existing field in place (the source mutates the
fetched TairHashVal through its pointer). -/
def hput : FieldStore → String → TairHashVal → FieldStore
  | [], _, _ => []
  | e :: rest, f, v => if e.1 = f then (f, v) :: hput rest f v else e :: hput rest f v

/-- Add a fresh field to the store (m_dictAdd, only ever called when the field
is absent). -/
def hadd (h : FieldStore) (f : String) (v : TairHashVal) : FieldStore :=
  h ++ [(f, v)]

/-- The per-key Local Expiry Index: (expire-time, field-name) pairs ordered by
expire time with the field name as tie break. -/
abbrev ExpireIndex := List (Int × String)

/-- Ordering used by the expiry index: by expire time, field name as tie break. -/
def idxLeb (a b : Int × String) : Bool :=
  decide (a.1 < b.1) || (decide (a.1 = b.1) && decide (a.2 ≤ b.2))

/-- Ordered insertion into the expiry index (m_zslInsert, modelled from the
specification of the ordered index strategy). -/
def idxInsert : ExpireIndex → Int → String → ExpireIndex
  | [], t, f => [(t, f)]
  | p :: rest, t, f =>
    if idxLeb (t, f) p then (t, f) :: p :: rest else p :: idxInsert rest t f

/-- Deletion of an (expire-time, field) pair from the expiry index
(m_zslDelete, modelled from the specification). -/
def idxDelete : ExpireIndex → Int → String → ExpireIndex
  | [], _, _ => []
  | p :: rest, t, f =>
    if p = (t, f) then idxDelete rest t f else p :: idxDelete rest t f

/-- The smallest expire time currently indexed, or none when empty. -/
def idxMinTime : ExpireIndex → Option Int
  | [] => none
  | p :: rest => some (rest.foldl (fun m q => min m q.1) p.1)

/-- One TairHash key (struct tairHashObj): its name back-reference, its field
store, its Local Expiry Index, and the key's entry in the per-namespace
expiry index (the minimum expire time it is indexed under there, or none). -/
structure HashObj where
  key : String
  hash : FieldStore
  expire_index : ExpireIndex
  gindex : Option Int
  deriving Repr, DecidableEq

/-- A command handed to the replication stream (RedisModule_Replicate). -/
inductive ReplCmd
  | exhdel (key field : String)
  | exhset (key field value : String) (absVer pxat : Option Int)
  | exhpexpireat (key field : String) (t : Int) (absVer : Option Int)
  | verbatim
  deriving Repr, DecidableEq

/-- Modelled from the spec: the Namespace Expiry Index entry of a key must
equal the minimum of its Local Expiry Index whenever that index is non-empty
and be absent otherwise; every index-maintaining operation restores this. -/
def refreshG (o : HashObj) : HashObj :=
  { o with gindex := idxMinTime o.expire_index }

/-- Modelled from the spec: the expiration algorithm's insert operation
(g_expire_algorithm.insert, implemented in the sort/slab/scan headers that
are not part of this source tree): the field had no prior TTL; insert into
the Local Expiry Index and refresh the Namespace Expiry Index entry. -/
def algInsert (o : HashObj) (f : String) (t : Int) : HashObj :=
  refreshG { o with expire_index := idxInsert o.expire_index t f }

/-- Modelled from the spec: the expiration algorithm's update operation
(g_expire_algorithm.update): remove the old entry, insert the new one and
refresh the Namespace Expiry Index entry. -/
def algUpdate (o : HashObj) (f : String) (told tnew : Int) : HashObj :=
  refreshG { o with expire_index := idxInsert (idxDelete o.expire_index told f) tnew f }

/-- Modelled from the spec: the expiration algorithm's delete operation
(g_expire_algorithm.delete): remove the entry and refresh the Namespace
Expiry Index entry. -/
def algDelete (o : HashObj) (f : String) (t : Int) : HashObj :=
  refreshG { o with expire_index := idxDelete o.expire_index t f }

/-- Modelled from the spec: deleteAndPropagate — expiration itself causes the
deletion, so remove the field from the store and both index levels and emit a
replicable EXHDEL so replicas converge without evaluating wall-clock time. -/
def deleteAndPropagate (o : HashObj) (f : String) (t : Int) : HashObj × List ReplCmd :=
  (refreshG { o with hash := hdel o.hash f, expire_index := idxDelete o.expire_index t f },
   [ReplCmd.exhdel o.key f])

/-- Has this expire time passed (isExpire, tairhash.c line 78): 0 never
expires, otherwise strictly past times are expired. -/
def isExpire (now whenv : Int) : Bool :=
  if whenv = 0 then false else decide (now > whenv)

/-- Field-store entries that have not yet expired (the survivors of a passive
expire sweep of the key). -/
def hfilterAlive (now : Int) : FieldStore → FieldStore
  | [] => []
  | e :: rest =>
    if isExpire now e.2.expire then hfilterAlive now rest else e :: hfilterAlive now rest

/-- Expiry-index entries that have not yet expired. -/
def idxFilterAlive (now : Int) : ExpireIndex → ExpireIndex
  | [] => []
  | p :: rest =>
    if isExpire now p.1 then idxFilterAlive now rest else p :: idxFilterAlive now rest

/-- Names of the currently expired fields of a store. -/
def expiredNames (now : Int) : FieldStore → List String
  | [] => []
  | e :: rest =>
    if isExpire now e.2.expire then e.1 :: expiredNames now rest else expiredNames now rest

/-- Modelled from the spec: passiveExpire (g_expire_algorithm.passiveExpire,
implemented in the algorithm headers that are not part of this source tree):
an opportunistic sweep of the key run before most field mutations; it
deletes-and-propagates every field found already expired, and a read-only
replica never self-deletes.  The per-call work budget is not modelled. -/
def passiveExpire (ro : Bool) (now : Int) (o : HashObj) : HashObj × List ReplCmd :=
  if ro then (o, [])
  else
    ({ key := o.key, hash := hfilterAlive now o.hash,
       expire_index := idxFilterAlive now o.expire_index,
       gindex := idxMinTime (idxFilterAlive now o.expire_index) },
     (expiredNames now o.hash).map (ReplCmd.exhdel o.key))

/-- fieldExpireIfNeeded (tairhash.c lines 270-292): report whether the field
is expired; on a writable primary actually delete and propagate it, on a
read-only instance only report. -/
def fieldExpireIfNeeded (ro : Bool) (now : Int) (o : HashObj) (f : String) :
    Bool × HashObj × List ReplCmd :=
  match hget o.hash f with
  | none => (false, o, [])
  | some v =>
    if v.expire = 0 then (false, o, [])
    else if ro then (decide (now > v.expire), o, [])
    else if now < v.expire then (false, o, [])
    else
      let pr := deleteAndPropagate o f v.expire
      (true, pr.1, pr.2)

/-- The version-check mode requested by a write (TAIR_HASH_SET_WITH_VER /
_WITH_ABS_VER / _WITH_GT_VER, or none). -/
inductive VerMode
  | noCheck
  | withVer
  | withAbs
  | withGt
  deriving Repr, DecidableEq

/-- The errors surfaced by the embedded commands. -/
inductive Err
  | syntaxErr
  | versionErr
  | overflowErr
  | notIntegerErr
  | notFloatErr
  | minmaxErr
  deriving Repr, DecidableEq

/-- A command reply: an integer, a bulk string, or an error. -/
inductive Reply
  | int (n : Int)
  | bulk (s : String)
  | err (e : Err)
  deriving Repr, DecidableEq

/-- Parsed options of EXHSET (tairhash.c lines 735-777). -/
structure SetOpts where
  nx : Bool
  xx : Bool
  expireArg : Option Int
  exSec : Bool
  absExpire : Bool
  verMode : VerMode
  version : Int
  keepttl : Bool
  deriving Repr, DecidableEq

/-- The absolute expire computed from a raw expire argument (tairhash.c lines
854-865): positive arguments are scaled to milliseconds and made absolute
against now unless already absolute; a present zero argument requests the
immediate expiration sentinel 1; no argument leaves 0. -/
def computeMs (now : Int) (expireArg : Option Int) (exSec absExpire : Bool) : Int :=
  let e0 := expireArg.getD 0
  if 0 < e0 then
    let e := if exSec then e0 * 1000 else e0
    if absExpire then e else now + e
  else if expireArg.isSome ∧ e0 = 0 then 1
  else 0

/-- The expire value stored by the shared write tail for a field whose expire
was oldExpire when the computed absolute expire is ms. -/
def finalExpire (oldExpire ms : Int) (keepttl : Bool) : Int :=
  if ms = 0 ∧ keepttl = false then (if ms > 0 then ms else 0)
  else if ms > 0 then ms else oldExpire

/-- The shared state-mutating tail of the field-writing commands (tairhash.c
lines 867-891 and 1508-1524): clear the index entry when the TTL is being
dropped, insert or update it when a TTL is being set, then store the new
value record. -/
def applyWrite (o : HashObj) (f : String) (nokey : Bool) (oldExpire : Int)
    (ms : Int) (keepttl : Bool) (newValue : String) (newVer : Int) : HashObj :=
  let o1 := if ms = 0 ∧ keepttl = false then algDelete o f oldExpire else o
  let exp1 := if ms = 0 ∧ keepttl = false then 0 else oldExpire
  let o2 :=
    if ms > 0 then
      (if nokey = true ∨ exp1 = 0 then algInsert o1 f ms else algUpdate o1 f exp1 ms)
    else o1
  let exp2 := if ms > 0 then ms else exp1
  let v2 : TairHashVal := { value := newValue, version := newVer, expire := exp2 }
  { o2 with hash := if nokey = true then hadd o2.hash f v2 else hput o2.hash f v2 }

/-- The accepting tail of EXHSET (tairhash.c lines 848-908): advance or force
the version, compute the absolute expire, mutate store and indices, reply 1
for a fresh field and 0 for an overwrite, and replicate an EXHSET carrying
ABS version and PXAT expire when the original carried version and expire
arguments. -/
def exhsetFinish (now : Int) (o : HashObj) (k f value : String) (opt : SetOpts)
    (nokey : Bool) (v : TairHashVal) (repl : List ReplCmd) :
    Option HashObj × Reply × List ReplCmd :=
  let ver1 := if opt.verMode = VerMode.withAbs ∨ opt.verMode = VerMode.withGt
    then opt.version else v.version + 1
  let ms := computeMs now opt.expireArg opt.exSec opt.absExpire
  let o3 := applyWrite o f nokey v.expire ms opt.keepttl value ver1
  let exp2 := finalExpire v.expire ms opt.keepttl
  (some o3, (if nokey then Reply.int 1 else Reply.int 0),
   repl ++ [ReplCmd.exhset k f value
      (if opt.verMode ≠ VerMode.noCheck then some ver1 else none)
      (if opt.expireArg.isSome then some exp2 else none)])

/-- The body of EXHSET once the key object exists (tairhash.c lines 815-908):
passively expire the field, then branch on presence, NX/XX and the version
check. -/
def exhsetBody (ro : Bool) (now : Int) (o0 : HashObj) (k f value : String)
    (opt : SetOpts) (repl0 : List ReplCmd) : Option HashObj × Reply × List ReplCmd :=
  let fr := fieldExpireIfNeeded ro now o0 f
  let o1 := fr.2.1
  let repl1 := repl0 ++ fr.2.2
  match hget o1.hash f with
  | none =>
    if opt.xx then (some o1, Reply.int (-1), repl1)
    else exhsetFinish now o1 k f value opt true { value := "", version := 0, expire := 0 } repl1
  | some v =>
    if opt.nx then (some o1, Reply.int (-1), repl1)
    else if opt.verMode = VerMode.withVer ∧ opt.version ≠ 0 ∧ opt.version ≠ v.version then
      (some o1, Reply.err Err.versionErr, repl1)
    else if opt.verMode = VerMode.withGt ∧ opt.version ≤ v.version then
      (some o1, Reply.err Err.versionErr, repl1)
    else exhsetFinish now o1 k f value opt false v repl1

/-- Do the parsed arguments fail EXHSET's validation (tairhash.c lines
779-797): a negative expire argument, a negative version, or a zero version
with ABS or GT. -/
def badSetArgs (expireArg : Option Int) (verMode : VerMode) (version : Int) : Prop :=
  expireArg.getD 0 < 0 ∨ version < 0 ∨
    ((verMode = VerMode.withAbs ∨ verMode = VerMode.withGt) ∧ version = 0)

instance (e : Option Int) (m : VerMode) (v : Int) : Decidable (badSetArgs e m v) := by
  unfold badSetArgs; infer_instance

/-- EXHSET (TairHashTypeHset_RedisCommand, tairhash.c lines 713-909), from
parsed arguments: passive expire first, then argument validation, key
creation unless XX, and the field write. -/
def TairHashTypeHset_RedisCommand (ro : Bool) (now : Int) (st : Option HashObj)
    (k f value : String) (opt : SetOpts) : Option HashObj × Reply × List ReplCmd :=
  match st with
  | none =>
    if badSetArgs opt.expireArg opt.verMode opt.version then
      (none, Reply.err Err.syntaxErr, [])
    else if opt.xx then (none, Reply.int (-1), [])
    else
      exhsetBody ro now { key := k, hash := [], expire_index := [], gindex := none }
        k f value opt []
  | some o =>
    let pr := passiveExpire ro now o
    if badSetArgs opt.expireArg opt.verMode opt.version then
      (some pr.1, Reply.err Err.syntaxErr, pr.2)
    else exhsetBody ro now pr.1 k f value opt pr.2

/-- EXHSETNX (TairHashTypeHsetNx_RedisCommand, tairhash.c lines 911-954):
passive expire, create the key if missing, then only add the field when it is
absent; a present field replies 0 and is left alone; a fresh field is created
with version 0 and no expire and replicated verbatim. -/
def TairHashTypeHsetNx_RedisCommand (ro : Bool) (now : Int) (st : Option HashObj)
    (k f value : String) : Option HashObj × Reply × List ReplCmd :=
  let pr : Option HashObj × List ReplCmd :=
    match st with
    | none => (none, [])
    | some o => let p := passiveExpire ro now o; (some p.1, p.2)
  let o0 : HashObj :=
    match pr.1 with
    | none => { key := k, hash := [], expire_index := [], gindex := none }
    | some o => o
  match hget o0.hash f with
  | some _ => (some o0, Reply.int 0, pr.2)
  | none =>
    (some { o0 with hash := hadd o0.hash f { value := value, version := 0, expire := 0 } },
     Reply.int 1, pr.2 ++ [ReplCmd.verbatim])

/-- One iteration of EXHDEL's field loop (tairhash.c lines 2018-2032):
passively expire the field, and if it is still present remove its index entry
(only when it has a positive expire), remove it from the store and replicate
an EXHDEL. -/
def exhdelStep (ro : Bool) (now : Int) (k : String)
    (acc : HashObj × Int × List ReplCmd) (f : String) : HashObj × Int × List ReplCmd :=
  let o := acc.1
  let fr := fieldExpireIfNeeded ro now o f
  let o1 := fr.2.1
  match hget o1.hash f with
  | none => (o1, acc.2.1, acc.2.2 ++ fr.2.2)
  | some v =>
    let o2 := if v.expire > 0 then algDelete o1 f v.expire else o1
    ({ o2 with hash := hdel o2.hash f }, acc.2.1 + 1,
     acc.2.2 ++ fr.2.2 ++ [ReplCmd.exhdel k f])

/-- EXHDEL (TairHashTypeHdel_RedisCommand, tairhash.c lines 1992-2037). -/
def TairHashTypeHdel_RedisCommand (ro : Bool) (now : Int) (st : Option HashObj)
    (k : String) (fs : List String) : Option HashObj × Reply × List ReplCmd :=
  match st with
  | none => (none, Reply.int 0, [])
  | some o =>
    let r := fs.foldl (exhdelStep ro now k) (o, 0, [])
    (some r.1, Reply.int r.2.1, r.2.2)

/-- EXHDELREPL (TairHashTypeHdelRepl_RedisCommand, tairhash.c lines
2043-2078): the internal deletion command used by the active-expire timer; it
removes the field from the store and replicates an EXHDEL, without touching
the expiry index. -/
def TairHashTypeHdelRepl_RedisCommand (st : Option HashObj) (k f : String) :
    Option HashObj × Reply × List ReplCmd :=
  match st with
  | none => (none, Reply.int 0, [])
  | some o =>
    match hget o.hash f with
    | none => (some o, Reply.int 0, [])
    | some _ => (some { o with hash := hdel o.hash f }, Reply.int 1, [ReplCmd.exhdel k f])

/-- One iteration of EXHDELWITHVER's loop (tairhash.c lines 2116-2136): the
field is deleted only when the supplied version is 0 or matches. -/
def exhdelWithVerStep (ro : Bool) (now : Int) (k : String)
    (acc : HashObj × Int × List ReplCmd) (fv : String × Int) : HashObj × Int × List ReplCmd :=
  let o := acc.1
  let fr := fieldExpireIfNeeded ro now o fv.1
  let o1 := fr.2.1
  match hget o1.hash fv.1 with
  | none => (o1, acc.2.1, acc.2.2 ++ fr.2.2)
  | some v =>
    if fv.2 = 0 ∨ fv.2 = v.version then
      let o2 := if v.expire > 0 then algDelete o1 fv.1 v.expire else o1
      ({ o2 with hash := hdel o2.hash fv.1 }, acc.2.1 + 1,
       acc.2.2 ++ fr.2.2 ++ [ReplCmd.exhdel k fv.1])
    else (o1, acc.2.1, acc.2.2 ++ fr.2.2)

/-- EXHDELWITHVER (TairHashTypeHdelWithVer_RedisCommand, tairhash.c lines
2080-2141). -/
def TairHashTypeHdelWithVer_RedisCommand (ro : Bool) (now : Int) (st : Option HashObj)
    (k : String) (fvs : List (String × Int)) : Option HashObj × Reply × List ReplCmd :=
  match st with
  | none => (none, Reply.int 0, [])
  | some o =>
    let r := fvs.foldl (exhdelWithVerStep ro now k) (o, 0, [])
    (some r.1, Reply.int r.2.1, r.2.2)

/-- EXHPERSIST (TairHashTypeHpersist_RedisCommand, tairhash.c lines
1151-1201): passively expire the field; when it survives and has a TTL,
remove its index entry and zero its stored expire. -/
def TairHashTypeHpersist_RedisCommand (ro : Bool) (now : Int) (st : Option HashObj)
    (f : String) : Option HashObj × Reply × List ReplCmd :=
  match st with
  | none => (none, Reply.int 0, [])
  | some o =>
    let fr := fieldExpireIfNeeded ro now o f
    let o1 := fr.2.1
    if fr.1 then (some o1, Reply.int 0, fr.2.2)
    else
      match hget o1.hash f with
      | none => (some o1, Reply.int 0, fr.2.2)
      | some v =>
        if v.expire = 0 then (some o1, Reply.int 0, fr.2.2)
        else
          let o2 := algDelete o1 f v.expire
          (some { o2 with hash := hput o2.hash f { v with expire := 0 } },
           Reply.int 1, fr.2.2)

/-- Parsed version options of the EXHEXPIRE family. -/
structure ExpOpts where
  verMode : VerMode
  version : Int
  deriving Repr, DecidableEq

/-- The EXHEXPIRE/EXHEXPIREAT/EXHPEXPIRE/EXHPEXPIREAT generic body
(tairHashExpireGenericFunc, tairhash.c lines 494-637): ms0 is the raw time
argument, basetime is now for the relative variants and 0 for the absolute
ones, unitSec scales seconds to milliseconds.  A zero time argument is stored
as the absolute expire 1. -/
def tairHashExpireGenericFunc (ro : Bool) (now basetime : Int) (unitSec : Bool)
    (st : Option HashObj) (k f : String) (ms0 : Int) (opt : ExpOpts) :
    Option HashObj × Reply × List ReplCmd :=
  if ms0 < 0 then (st, Reply.err Err.syntaxErr, [])
  else if opt.version < 0 ∨
      ((opt.verMode = VerMode.withAbs ∨ opt.verMode = VerMode.withGt) ∧ opt.version = 0) then
    (st, Reply.err Err.syntaxErr, [])
  else
    match st with
    | none => (none, Reply.int 0, [])
    | some o =>
      let fr := fieldExpireIfNeeded ro now o f
      let o1 := fr.2.1
      match hget o1.hash f with
      | none => (some o1, Reply.int 0, fr.2.2)
      | some v =>
        if fr.1 then (some o1, Reply.int 0, fr.2.2)
        else if opt.verMode = VerMode.withVer ∧ opt.version ≠ 0 ∧ opt.version ≠ v.version then
          (some o1, Reply.err Err.versionErr, fr.2.2)
        else if opt.verMode = VerMode.withGt ∧ opt.version ≤ v.version then
          (some o1, Reply.err Err.versionErr, fr.2.2)
        else
          let ms := if ms0 = 0 then 1 else (if unitSec then ms0 * 1000 else ms0) + basetime
          let o2 :=
            if ms > 0 then
              (if v.expire = 0 then algInsert o1 f ms else algUpdate o1 f v.expire ms)
            else o1
          let exp2 := if ms > 0 then ms else v.expire
          let ver1 := if opt.verMode = VerMode.withAbs ∨ opt.verMode = VerMode.withGt
            then opt.version else v.version + 1
          let o3 := { o2 with hash := hput o2.hash f { v with expire := exp2, version := ver1 } }
          (some o3, Reply.int 1,
           fr.2.2 ++ [ReplCmd.exhpexpireat k f exp2
              (if opt.verMode ≠ VerMode.noCheck then some ver1 else none)])

/-- The signed 64-bit maximum (LLONG_MAX). -/
def LLONG_MAX : Int := 2 ^ 63 - 1

/-- The signed 64-bit minimum (LLONG_MIN). -/
def LLONG_MIN : Int := -(2 ^ 63)

/-- The numeric value of a decimal digit list, most significant first. -/
def digitsToNat : List Char → Nat → Option Nat
  | [], acc => some acc
  | c :: rest, acc =>
    if c.isDigit then digitsToNat rest (acc * 10 + (c.toNat - 48)) else none

/-- Modelled from the spec: the host's string-to-long-long parse
(RedisModule_StringToLongLong, not part of this source tree): an optional
minus sign and decimal digits, rejected outside the signed 64-bit range. -/
def string2llAux : List Char → Option Int
  | [] => none
  | c :: rest =>
    if c = Char.ofNat 45 then
      match rest with
      | [] => none
      | _ :: _ =>
        match digitsToNat rest 0 with
        | none => none
        | some n => if (n : Int) ≤ 2 ^ 63 then some (-(n : Int)) else none
    else
      match digitsToNat (c :: rest) 0 with
      | none => none
      | some n => if (n : Int) < 2 ^ 63 then some ((n : Int)) else none

/-- The parse applied to a value's bytes. -/
def string2ll (s : String) : Option Int :=
  string2llAux s.data

/-- Parsed options of EXHINCRBY (tairhash.c lines 1340-1386). -/
structure IncrOpts where
  expireArg : Option Int
  exSec : Bool
  absExpire : Bool
  verMode : VerMode
  version : Int
  minArg : Option Int
  maxArg : Option Int
  keepttl : Bool
  deriving Repr, DecidableEq

/-- The overflow/bounds rejection condition of EXHINCRBY exactly as written in
the source (tairhash.c line 1474). -/
def incrOverflows (cur incr : Int) (minArg maxArg : Option Int) : Prop :=
  (incr < 0 ∧ cur < 0 ∧ incr < LLONG_MIN - cur) ∨
  (incr > 0 ∧ cur > 0 ∧ incr > LLONG_MAX - cur) ∨
  (maxArg.isSome ∧ cur + incr > maxArg.getD 0) ∨
  (minArg.isSome ∧ cur + incr < minArg.getD 0)

instance (cur incr : Int) (mn mx : Option Int) : Decidable (incrOverflows cur incr mn mx) := by
  unfold incrOverflows; infer_instance

/-- The accepting tail of EXHINCRBY (tairhash.c lines 1474-1534): reject on
overflow or bounds, otherwise advance or force the version, add, store the
printed sum, maintain the indices and replicate a fixed-version EXHSET — with
PXAT set to the computed absolute expire plus now again, exactly as the
source writes it. -/
def exhincrbyTail (now : Int) (o : HashObj) (k f : String) (incr : Int) (opt : IncrOpts)
    (nokey : Bool) (v : TairHashVal) (cur : Int) (repl : List ReplCmd) :
    Option HashObj × Reply × List ReplCmd :=
  if incrOverflows cur incr opt.minArg opt.maxArg then
    (some o, Reply.err Err.overflowErr, repl)
  else
    let ver1 := if opt.verMode = VerMode.withAbs ∨ opt.verMode = VerMode.withGt
      then opt.version else v.version + 1
    let cur1 := cur + incr
    let ms := computeMs now opt.expireArg opt.exSec opt.absExpire
    let o3 := applyWrite o f nokey v.expire ms opt.keepttl (toString cur1) ver1
    let rcmd := if ms > 0 then
        ReplCmd.exhset k f (toString cur1) (some ver1) (some (ms + now))
      else ReplCmd.exhset k f (toString cur1) (some ver1) none
    (some o3, Reply.int cur1, repl ++ [rcmd])

/-- Do the parsed arguments fail EXHINCRBY's validation (tairhash.c lines
1388-1421, minus the parse failures handled by the excluded argument layer). -/
def badIncrArgs (opt : IncrOpts) : Prop :=
  opt.expireArg.getD 0 < 0 ∨ opt.version < 0 ∨
    ((opt.verMode = VerMode.withAbs ∨ opt.verMode = VerMode.withGt) ∧ opt.version = 0)

instance (opt : IncrOpts) : Decidable (badIncrArgs opt) := by
  unfold badIncrArgs; infer_instance

/-- EXHINCRBY (TairHashTypeHincrBy_RedisCommand, tairhash.c lines 1311-1535),
from parsed arguments. -/
def TairHashTypeHincrBy_RedisCommand (ro : Bool) (now : Int) (st : Option HashObj)
    (k f : String) (incr : Int) (opt : IncrOpts) : Option HashObj × Reply × List ReplCmd :=
  let pr : Option HashObj × List ReplCmd :=
    match st with
    | none => (none, [])
    | some o => let p := passiveExpire ro now o; (some p.1, p.2)
  if badIncrArgs opt then (pr.1, Reply.err Err.syntaxErr, pr.2)
  else if opt.minArg.isSome ∧ opt.maxArg.isSome ∧ opt.maxArg.getD 0 < opt.minArg.getD 0 then
    (pr.1, Reply.err Err.minmaxErr, pr.2)
  else
    let o0 : HashObj :=
      match pr.1 with
      | none => { key := k, hash := [], expire_index := [], gindex := none }
      | some o => o
    let fr := fieldExpireIfNeeded ro now o0 f
    let o1 := fr.2.1
    let repl1 := pr.2 ++ fr.2.2
    match hget o1.hash f with
    | none =>
      exhincrbyTail now o1 k f incr opt true { value := "0", version := 0, expire := 0 } 0 repl1
    | some v =>
      match string2ll v.value with
      | none => (some o1, Reply.err Err.notIntegerErr, repl1)
      | some cur =>
        if opt.verMode = VerMode.withVer ∧ opt.version ≠ 0 ∧ opt.version ≠ v.version then
          (some o1, Reply.err Err.versionErr, repl1)
        else if opt.verMode = VerMode.withGt ∧ opt.version ≤ v.version then
          (some o1, Reply.err Err.versionErr, repl1)
        else exhincrbyTail now o1 k f incr opt false v cur repl1

/-- A long double value as the float command observes it: NaN, a signed
infinity, or a finite value (carried exactly as a rational; the finite range
limit of the machine format is not modelled). -/
inductive LD
  | nan
  | inf (neg : Bool)
  | fin (q : Rat)
  deriving Repr, DecidableEq

/-- Long-double addition on the model. -/
def LD.add : LD → LD → LD
  | LD.nan, _ => LD.nan
  | _, LD.nan => LD.nan
  | LD.inf a, LD.inf b => if a = b then LD.inf a else LD.nan
  | LD.inf a, LD.fin _ => LD.inf a
  | LD.fin _, LD.inf b => LD.inf b
  | LD.fin a, LD.fin b => LD.fin (a + b)

/-- Is the value finite: the negation of the source's isnan-or-isinf test. -/
def LD.isFinite : LD → Bool
  | LD.fin _ => true
  | _ => false

/-- The strict less-than of the C comparison operators: any comparison with
NaN is false. -/
def LD.ltb : LD → LD → Bool
  | LD.nan, _ => false
  | _, LD.nan => false
  | LD.inf a, LD.inf b => a && !b
  | LD.inf a, LD.fin _ => a
  | LD.fin _, LD.inf b => !b
  | LD.fin a, LD.fin b => decide (a < b)

/-- The fractional digits after the decimal point, as numerator/denominator. -/
def parseUFrac : List Char → Nat → Nat → Option Rat
  | [], acc, den => some ((acc : Rat) / (den : Rat))
  | c :: rest, acc, den =>
    if c.isDigit then parseUFrac rest (acc * 10 + (c.toNat - 48)) (den * 10) else none

/-- An unsigned decimal with an optional fractional part. -/
def parseUDec : List Char → Nat → Option Rat
  | [], acc => some ((acc : Rat))
  | c :: rest, acc =>
    if c.isDigit then parseUDec rest (acc * 10 + (c.toNat - 48))
    else if c = Char.ofNat 46 then (parseUFrac rest 0 1).map (fun fr => (acc : Rat) + fr)
    else none

/-- Modelled from the spec: the host's string-to-long-double parse
(m_string2ld, not part of this source tree): an optional minus sign, decimal
digits and an optional fractional part, carried exactly. -/
def string2ldAux : List Char → Option LD
  | [] => none
  | c :: rest =>
    if c = Char.ofNat 45 then
      match rest with
      | [] => none
      | _ :: _ => (parseUDec rest 0).map (fun q => LD.fin (-q))
    else (parseUDec (c :: rest) 0).map LD.fin

/-- The float parse applied to a value's bytes. -/
def string2ld (s : String) : Option LD :=
  string2ldAux s.data

/-- Modelled from the spec: the host's long-double formatter (m_ld2string, not
part of this source tree), rendered canonically. -/
def ld2string : LD → String
  | LD.nan => "nan"
  | LD.inf b => if b then "-inf" else "inf"
  | LD.fin q => if q.den = 1 then toString q.num else toString q.num ++ "/" ++ toString q.den

/-- Parsed options of EXHINCRBYFLOAT (tairhash.c lines 1568-1615). -/
structure IncrFOpts where
  expireArg : Option Int
  exSec : Bool
  absExpire : Bool
  verMode : VerMode
  version : Int
  minArg : Option LD
  maxArg : Option LD
  keepttl : Bool
  deriving Repr, DecidableEq

/-- The accepting tail of EXHINCRBYFLOAT (tairhash.c lines 1707-1777): reject
when the sum is not finite, then on bounds, otherwise write the formatted sum
and replicate a fixed-version EXHSET — with PXAT again set to the absolute
expire plus now, exactly as the source writes it. -/
def exhincrbyFloatTail (now : Int) (o : HashObj) (k f : String) (incr : LD) (opt : IncrFOpts)
    (nokey : Bool) (v : TairHashVal) (cur : LD) (repl : List ReplCmd) :
    Option HashObj × Reply × List ReplCmd :=
  if ¬ (cur.add incr).isFinite then
    (some o, Reply.err Err.overflowErr, repl)
  else if (opt.maxArg.isSome ∧ LD.ltb (opt.maxArg.getD LD.nan) (cur.add incr)) ∨
      (opt.minArg.isSome ∧ LD.ltb (cur.add incr) (opt.minArg.getD LD.nan)) then
    (some o, Reply.err Err.overflowErr, repl)
  else
    let ver1 := if opt.verMode = VerMode.withAbs ∨ opt.verMode = VerMode.withGt
      then opt.version else v.version + 1
    let cur1 := cur.add incr
    let ms := computeMs now opt.expireArg opt.exSec opt.absExpire
    let o3 := applyWrite o f nokey v.expire ms opt.keepttl (ld2string cur1) ver1
    let rcmd := if ms > 0 then
        ReplCmd.exhset k f (ld2string cur1) (some ver1) (some (ms + now))
      else ReplCmd.exhset k f (ld2string cur1) (some ver1) none
    (some o3, Reply.bulk (ld2string cur1), repl ++ [rcmd])

/-- Do the parsed arguments fail EXHINCRBYFLOAT's validation (tairhash.c
lines 1617-1635). -/
def badIncrFArgs (opt : IncrFOpts) : Prop :=
  opt.expireArg.getD 0 < 0 ∨ opt.version < 0 ∨
    ((opt.verMode = VerMode.withAbs ∨ opt.verMode = VerMode.withGt) ∧ opt.version = 0)

instance (opt : IncrFOpts) : Decidable (badIncrFArgs opt) := by
  unfold badIncrFArgs; infer_instance

/-- EXHINCRBYFLOAT (TairHashTypeHincrByFloat_RedisCommand, tairhash.c lines
1537-1778), from parsed arguments. -/
def TairHashTypeHincrByFloat_RedisCommand (ro : Bool) (now : Int) (st : Option HashObj)
    (k f : String) (incr : LD) (opt : IncrFOpts) : Option HashObj × Reply × List ReplCmd :=
  let pr : Option HashObj × List ReplCmd :=
    match st with
    | none => (none, [])
    | some o => let p := passiveExpire ro now o; (some p.1, p.2)
  if badIncrFArgs opt then (pr.1, Reply.err Err.syntaxErr, pr.2)
  else if opt.minArg.isSome ∧ opt.maxArg.isSome ∧
      LD.ltb (opt.maxArg.getD LD.nan) (opt.minArg.getD LD.nan) then
    (pr.1, Reply.err Err.minmaxErr, pr.2)
  else
    let o0 : HashObj :=
      match pr.1 with
      | none => { key := k, hash := [], expire_index := [], gindex := none }
      | some o => o
    let fr := fieldExpireIfNeeded ro now o0 f
    let o1 := fr.2.1
    let repl1 := pr.2 ++ fr.2.2
    match hget o1.hash f with
    | none =>
      exhincrbyFloatTail now o1 k f incr opt true
        { value := "0", version := 0, expire := 0 } (LD.fin 0) repl1
    | some v =>
      match string2ld v.value with
      | none => (some o1, Reply.err Err.notFloatErr, repl1)
      | some cur =>
        if opt.verMode = VerMode.withVer ∧ opt.version ≠ 0 ∧ opt.version ≠ v.version then
          (some o1, Reply.err Err.versionErr, repl1)
        else if opt.verMode = VerMode.withGt ∧ opt.version ≤ v.version then
          (some o1, Reply.err Err.versionErr, repl1)
        else exhincrbyFloatTail now o1 k f incr opt false v cur repl1

/-- EXHLEN (TairHashTypeHlen_RedisCommand, tairhash.c lines 2143-2204): with
the noexp option count only the fields not yet expired, otherwise reply with
the raw store size; no state is touched either way. -/
def TairHashTypeHlen_RedisCommand (now : Int) (st : Option HashObj) (noexp : Bool) :
    Option HashObj × Reply × List ReplCmd :=
  match st with
  | none => (none, Reply.int 0, [])
  | some o =>
    if noexp then
      (some o, Reply.int ((o.hash.countP (fun e => ¬ isExpire now e.2.expire)) : Int), [])
    else (some o, Reply.int ((o.hash.length : Int)), [])

/-- One field of the persisted snapshot: name, version, expire, value, in the
order RdbSave writes them. -/
structure RdbField where
  skey : String
  version : Int
  expire : Int
  value : String
  deriving Repr, DecidableEq

/-- The logical snapshot of one key: field count (the list length), owning
key name, then the fields. -/
structure RdbImage where
  key : String
  fields : List RdbField
  deriving Repr, DecidableEq

/-- TairHashTypeRdbSave (tairhash.c lines 2748-2770): emit the field count,
the owning key name, then per field the name, version, expire and value. -/
def TairHashTypeRdbSave (o : HashObj) : RdbImage :=
  { key := o.key,
    fields := o.hash.map (fun e =>
      { skey := e.1, version := e.2.version, expire := e.2.expire, value := e.2.value }) }

/-- One iteration of RdbLoad's field loop (tairhash.c lines 2728-2743): add
the field to the store and, when its expire is nonzero, insert it into both
index levels. -/
def rdbLoadStep (o : HashObj) (fld : RdbField) : HashObj :=
  let hv : TairHashVal := { value := fld.value, version := fld.version, expire := fld.expire }
  let o1 := { o with hash := hadd o.hash fld.skey hv }
  if fld.expire ≠ 0 then algInsert o1 fld.skey fld.expire else o1

/-- TairHashTypeRdbLoad (tairhash.c lines 2715-2746): rebuild the key from an
empty object by replaying every saved field. -/
def TairHashTypeRdbLoad (img : RdbImage) : HashObj :=
  img.fields.foldl rdbLoadStep { key := img.key, hash := [], expire_index := [], gindex := none }

/-- The statistics kept by the active-expire timer (fields of
g_expire_algorithm plus the handler's static counters). -/
structure ExpireStats where
  last : Nat
  maxT : Nat
  avg : Nat
  loop_cnt : Nat
  total : Nat
  enable : Bool
  deriving Repr, DecidableEq

/-- The outcome of one timer tick: the new statistics and whether the timer
was re-armed. -/
structure TickResult where
  stats : ExpireStats
  rearmed : Bool
  deriving Repr, DecidableEq

/-- The statistics/re-arm skeleton of activeExpireTimerHandler (tairhash.c
lines 223-268): a read-only instance skips straight to re-arming; a writable
tick records its duration as the last-tick statistic, raises the maximum when
exceeded, accumulates, and on every tenth accumulated tick recomputes the
average as sum over count and resets both accumulators; the timer is
re-armed at the fixed period exactly when active expiration is enabled.  The
bounded sweep of the namespaces inside the tick is the algorithm headers'
activeExpire, which is not part of this source tree and not modelled here. -/
def activeExpireTimerHandler (ro : Bool) (duration : Nat) (s : ExpireStats) : TickResult :=
  if ro then { stats := s, rearmed := s.enable }
  else
    let last := duration
    let maxT := if s.maxT < last then last else s.maxT
    let total := s.total + last
    let cnt := s.loop_cnt + 1
    if cnt % 10 = 0 then
      { stats := { last := last, maxT := maxT, avg := total / cnt, loop_cnt := 0,
                   total := 0, enable := s.enable },
        rearmed := s.enable }
    else
      { stats := { last := last, maxT := maxT, avg := s.avg, loop_cnt := cnt,
                   total := total, enable := s.enable },
        rearmed := s.enable }

/-- The Local Expiry Index invariant of the data model: an (expire-time,
field-name) entry exists in the key's index exactly when that field is stored
with that nonzero expire. -/
def InvP (o : HashObj) : Prop :=
  ∀ t f, (t, f) ∈ o.expire_index ↔
    ∃ v, hget o.hash f = some v ∧ v.expire = t ∧ t ≠ 0

/-- All stored expire times are nonnegative (every write path only stores 0
or a positive absolute time when the clock is nonnegative). -/
def NonnegExp (o : HashObj) : Prop :=
  ∀ e ∈ o.hash, 0 ≤ e.2.expire

/-- The store has at most one entry per field name (a dict property). -/
def KeysNodup (o : HashObj) : Prop :=
  (o.hash.map Prod.fst).Nodup

/-- The well-formedness carried by the invariant claim: unique field names,
the index invariant, and nonnegative stored expires. -/
def GoodObj (o : HashObj) : Prop :=
  KeysNodup o ∧ InvP o ∧ NonnegExp o

/-- GoodObj lifted to a possibly-absent key. -/
def GoodSt : Option HashObj → Prop
  | none => True
  | some o => GoodObj o

/-- An executable sufficient check for InvP on concrete states. -/
def checkInv (o : HashObj) : Bool :=
  o.expire_index.all (fun p =>
    decide (p.1 ≠ 0) && ((hget o.hash p.2).map TairHashVal.expire == some p.1)) &&
  o.hash.all (fun e => (e.2.expire == 0) || decide ((e.2.expire, e.1) ∈ o.expire_index))

/-- An executable sufficient check for NonnegExp on concrete states. -/
def checkNonneg (o : HashObj) : Bool :=
  o.hash.all (fun e => decide (0 ≤ e.2.expire))

theorem hget_hdel (h : FieldStore) (f g : String) :
    hget (hdel h f) g = if g = f then none else hget h g := by
  induction h with
  | nil => simp [hdel, hget]
  | cons e rest ih =>
    by_cases h1 : e.1 = f
    · rw [hdel, if_pos h1, ih]
      by_cases hg : g = f
      · simp [hg]
      · have hfg : ¬ e.1 = g := by rw [h1]; exact fun hx => hg hx.symm
        simp [hg, hget, hfg]
    · rw [hdel, if_neg h1]
      by_cases he : e.1 = g
      · have hg : ¬ g = f := fun hx => h1 (by rw [he, hx])
        simp [hget, he, hg]
      · simp [hget, he, ih]

theorem hget_hput (h : FieldStore) (f g : String) (v : TairHashVal) :
    hget (hput h f v) g =
      if g = f then (hget h f).map (fun _ => v) else hget h g := by
  induction h with
  | nil => simp [hput, hget]
  | cons e rest ih =>
    by_cases h1 : e.1 = f
    · rw [hput, if_pos h1]
      by_cases hg : g = f
      · simp [hget, hg, h1]
      · have hfg : ¬ f = g := fun hx => hg hx.symm
        have he : ¬ e.1 = g := by rw [h1]; exact hfg
        simp [hget, hg, hfg, he, ih]
    · rw [hput, if_neg h1]
      by_cases he : e.1 = g
      · have hg : ¬ g = f := fun hx => h1 (by rw [he, hx])
        simp [hget, he, hg]
      · simp [hget, he, ih, h1]

theorem hget_hadd (h : FieldStore) (f g : String) (v : TairHashVal) :
    hget (hadd h f v) g =
      match hget h g with
      | some w => some w
      | none => if f = g then some v else none := by
  induction h with
  | nil => simp [hadd, hget]
  | cons e rest ih =>
    simp only [hadd, hget, List.cons_append]
    by_cases he : e.1 = g
    · simp [hget, he]
    · simpa [hget, he] using ih

theorem hget_mem {h : FieldStore} {f : String} {v : TairHashVal}
    (hv : hget h f = some v) : (f, v) ∈ h := by
  induction h with
  | nil => simp [hget] at hv
  | cons e rest ih =>
    rw [hget] at hv
    by_cases h1 : e.1 = f
    · rw [if_pos h1] at hv
      obtain ⟨a, b⟩ := e
      obtain rfl : a = f := h1
      obtain rfl : b = v := by simpa using hv
      exact List.mem_cons_self _ _
    · rw [if_neg h1] at hv
      exact List.mem_cons_of_mem _ (ih hv)

theorem hget_none_not_mem_keys {h : FieldStore} {f : String}
    (hv : hget h f = none) : f ∉ h.map Prod.fst := by
  induction h with
  | nil => simp
  | cons e rest ih =>
    rw [hget] at hv
    by_cases h1 : e.1 = f
    · rw [if_pos h1] at hv; cases hv
    · rw [if_neg h1] at hv
      simp only [List.map_cons, List.mem_cons]
      rintro (rfl | hm)
      · exact h1 rfl
      · exact ih hv hm

theorem mem_idxInsert (idx : ExpireIndex) (t : Int) (f : String) (q : Int × String) :
    q ∈ idxInsert idx t f ↔ q = (t, f) ∨ q ∈ idx := by
  induction idx with
  | nil => simp [idxInsert]
  | cons p rest ih =>
    rw [idxInsert]
    by_cases hle : idxLeb (t, f) p
    · rw [if_pos hle]; simp
    · rw [if_neg hle, List.mem_cons, ih, List.mem_cons]
      tauto

theorem mem_idxDelete (idx : ExpireIndex) (t : Int) (f : String) (q : Int × String) :
    q ∈ idxDelete idx t f ↔ q ∈ idx ∧ q ≠ (t, f) := by
  induction idx with
  | nil => simp [idxDelete]
  | cons p rest ih =>
    rw [idxDelete]
    by_cases hp : p = (t, f)
    · rw [if_pos hp, ih]
      subst hp
      constructor
      · exact fun hq => ⟨List.mem_cons_of_mem _ hq.1, hq.2⟩
      · rintro ⟨hq, hne⟩
        rcases List.mem_cons.mp hq with rfl | hq
        · exact absurd rfl hne
        · exact ⟨hq, hne⟩
    · rw [if_neg hp, List.mem_cons, ih, List.mem_cons]
      constructor
      · rintro (rfl | ⟨hq, hne⟩)
        · exact ⟨Or.inl rfl, hp⟩
        · exact ⟨Or.inr hq, hne⟩
      · rintro ⟨rfl | hq, hne⟩
        · exact Or.inl rfl
        · exact Or.inr ⟨hq, hne⟩

theorem mem_idxFilterAlive (now : Int) (idx : ExpireIndex) (q : Int × String) :
    q ∈ idxFilterAlive now idx ↔ q ∈ idx ∧ isExpire now q.1 = false := by
  induction idx with
  | nil => simp [idxFilterAlive]
  | cons p rest ih =>
    rw [idxFilterAlive]
    by_cases hx : isExpire now p.1
    · rw [if_pos hx, ih]
      constructor
      · exact fun hq => ⟨List.mem_cons_of_mem _ hq.1, hq.2⟩
      · rintro ⟨hq, hal⟩
        rcases List.mem_cons.mp hq with rfl | hq
        · rw [hx] at hal; cases hal
        · exact ⟨hq, hal⟩
    · rw [if_neg hx, List.mem_cons, ih, List.mem_cons]
      constructor
      · rintro (rfl | ⟨hq, hal⟩)
        · exact ⟨Or.inl rfl, by simpa using hx⟩
        · exact ⟨Or.inr hq, hal⟩
      · rintro ⟨rfl | hq, hal⟩
        · exact Or.inl rfl
        · exact Or.inr ⟨hq, hal⟩

theorem hget_hfilterAlive_alive {now : Int} {h : FieldStore} {f : String} {v : TairHashVal}
    (hv : hget h f = some v) (hal : isExpire now v.expire = false) :
    hget (hfilterAlive now h) f = some v := by
  induction h with
  | nil => simp [hget] at hv
  | cons e rest ih =>
    rw [hget] at hv
    by_cases h1 : e.1 = f
    · rw [if_pos h1] at hv
      obtain rfl : e.2 = v := by simpa using hv
      rw [hfilterAlive, if_neg (by rw [hal]; exact fun hx => nomatch hx), hget, if_pos h1]
    · rw [if_neg h1] at hv
      rw [hfilterAlive]
      by_cases hx : isExpire now e.2.expire
      · rw [if_pos hx]; exact ih hv
      · rw [if_neg hx, hget, if_neg h1]; exact ih hv

theorem hget_hfilterAlive_none {now : Int} {h : FieldStore} {f : String}
    (hv : hget h f = none) : hget (hfilterAlive now h) f = none := by
  induction h with
  | nil => simp [hfilterAlive, hget]
  | cons e rest ih =>
    rw [hget] at hv
    by_cases h1 : e.1 = f
    · rw [if_pos h1] at hv; cases hv
    · rw [if_neg h1] at hv
      rw [hfilterAlive]
      by_cases hx : isExpire now e.2.expire
      · rw [if_pos hx]; exact ih hv
      · rw [if_neg hx, hget, if_neg h1]; exact ih hv

theorem hget_hfilterAlive_rev {now : Int} {h : FieldStore} {f : String} {v : TairHashVal}
    (hnd : (h.map Prod.fst).Nodup)
    (hv : hget (hfilterAlive now h) f = some v) :
    hget h f = some v ∧ isExpire now v.expire = false := by
  induction h with
  | nil => simp [hfilterAlive, hget] at hv
  | cons e rest ih =>
    rw [List.map_cons, List.nodup_cons] at hnd
    rw [hfilterAlive] at hv
    by_cases hx : isExpire now e.2.expire
    · rw [if_pos hx] at hv
      have hr := ih hnd.2 hv
      by_cases h1 : e.1 = f
      · exfalso
        exact hnd.1 (h1 ▸ (List.mem_map.mpr ⟨(f, v), hget_mem hr.1, rfl⟩))
      · rw [hget, if_neg h1]
        exact hr
    · rw [if_neg hx, hget] at hv
      by_cases h1 : e.1 = f
      · rw [if_pos h1] at hv
        obtain rfl : e.2 = v := by simpa using hv
        exact ⟨by rw [hget, if_pos h1], by simpa using hx⟩
      · rw [if_neg h1] at hv
        rw [hget, if_neg h1]
        exact ih hnd.2 hv

theorem sublist_hdel (h : FieldStore) (f : String) : (hdel h f).Sublist h := by
  induction h with
  | nil => simp [hdel]
  | cons e rest ih =>
    rw [hdel]
    by_cases h1 : e.1 = f
    · rw [if_pos h1]; exact ih.cons _
    · rw [if_neg h1]; exact ih.cons₂ _

theorem sublist_hfilterAlive (now : Int) (h : FieldStore) :
    (hfilterAlive now h).Sublist h := by
  induction h with
  | nil => simp [hfilterAlive]
  | cons e rest ih =>
    rw [hfilterAlive]
    by_cases hx : isExpire now e.2.expire
    · rw [if_pos hx]; exact ih.cons _
    · rw [if_neg hx]; exact ih.cons₂ _

theorem map_fst_hput (h : FieldStore) (f : String) (v : TairHashVal) :
    (hput h f v).map Prod.fst = h.map Prod.fst := by
  induction h with
  | nil => simp [hput]
  | cons e rest ih =>
    rw [hput]
    by_cases h1 : e.1 = f
    · rw [if_pos h1]
      simp [ih, h1]
    · rw [if_neg h1]
      simp [ih]

theorem checkInv_sound {o : HashObj} (hc : checkInv o = true) : InvP o := by
  unfold checkInv at hc
  rw [Bool.and_eq_true, List.all_eq_true, List.all_eq_true] at hc
  intro t f
  constructor
  · intro hm
    have h1 := hc.1 _ hm
    rw [Bool.and_eq_true, decide_eq_true_eq, beq_iff_eq] at h1
    obtain ⟨ht0, hmap⟩ := h1
    cases hv : hget o.hash f with
    | none => rw [hv] at hmap; simp at hmap
    | some v =>
      rw [hv] at hmap
      have hmap2 : v.expire = t := by simpa using hmap
      exact ⟨v, rfl, hmap2, ht0⟩
  · rintro ⟨v, hv, hexp, ht0⟩
    have hmem := hget_mem hv
    have h2 := hc.2 _ hmem
    rw [Bool.or_eq_true, beq_iff_eq, decide_eq_true_eq] at h2
    rcases h2 with h2 | h2
    · exact absurd (hexp ▸ h2) ht0
    · simpa [hexp] using h2

theorem checkNonneg_sound {o : HashObj} (hc : checkNonneg o = true) : NonnegExp o := by
  unfold checkNonneg at hc
  rw [List.all_eq_true] at hc
  intro e he
  simpa using hc e he

theorem nonneg_hget {o : HashObj} (hn : NonnegExp o) {f : String} {v : TairHashVal}
    (hv : hget o.hash f = some v) : 0 ≤ v.expire :=
  hn _ (hget_mem hv)

theorem mem_hput {h : FieldStore} {f : String} {v : TairHashVal} {e : String × TairHashVal}
    (he : e ∈ hput h f v) : e ∈ h ∨ e = (f, v) := by
  induction h with
  | nil => simp [hput] at he
  | cons p rest ih =>
    rw [hput] at he
    by_cases h1 : p.1 = f
    · rw [if_pos h1] at he
      rcases List.mem_cons.mp he with rfl | he
      · exact Or.inr rfl
      · rcases ih he with hm | hm
        · exact Or.inl (List.mem_cons_of_mem _ hm)
        · exact Or.inr hm
    · rw [if_neg h1] at he
      rcases List.mem_cons.mp he with rfl | he
      · exact Or.inl (List.mem_cons_self _ _)
      · rcases ih he with hm | hm
        · exact Or.inl (List.mem_cons_of_mem _ hm)
        · exact Or.inr hm

theorem mem_hadd {h : FieldStore} {f : String} {v : TairHashVal} {e : String × TairHashVal}
    (he : e ∈ hadd h f v) : e ∈ h ∨ e = (f, v) := by
  unfold hadd at he
  rcases List.mem_append.mp he with hm | hm
  · exact Or.inl hm
  · exact Or.inr (by simpa using hm)

@[simp] theorem algInsert_key (o : HashObj) (f : String) (t : Int) :
    (algInsert o f t).key = o.key := rfl

@[simp] theorem algInsert_hash (o : HashObj) (f : String) (t : Int) :
    (algInsert o f t).hash = o.hash := rfl

@[simp] theorem algInsert_idx (o : HashObj) (f : String) (t : Int) :
    (algInsert o f t).expire_index = idxInsert o.expire_index t f := rfl

@[simp] theorem algUpdate_key (o : HashObj) (f : String) (t1 t2 : Int) :
    (algUpdate o f t1 t2).key = o.key := rfl

@[simp] theorem algUpdate_hash (o : HashObj) (f : String) (t1 t2 : Int) :
    (algUpdate o f t1 t2).hash = o.hash := rfl

@[simp] theorem algUpdate_idx (o : HashObj) (f : String) (t1 t2 : Int) :
    (algUpdate o f t1 t2).expire_index = idxInsert (idxDelete o.expire_index t1 f) t2 f := rfl

@[simp] theorem algDelete_key (o : HashObj) (f : String) (t : Int) :
    (algDelete o f t).key = o.key := rfl

@[simp] theorem algDelete_hash (o : HashObj) (f : String) (t : Int) :
    (algDelete o f t).hash = o.hash := rfl

@[simp] theorem algDelete_idx (o : HashObj) (f : String) (t : Int) :
    (algDelete o f t).expire_index = idxDelete o.expire_index t f := rfl

@[simp] theorem deleteAndPropagate_key (o : HashObj) (f : String) (t : Int) :
    (deleteAndPropagate o f t).1.key = o.key := rfl

@[simp] theorem deleteAndPropagate_hash (o : HashObj) (f : String) (t : Int) :
    (deleteAndPropagate o f t).1.hash = hdel o.hash f := rfl

@[simp] theorem deleteAndPropagate_idx (o : HashObj) (f : String) (t : Int) :
    (deleteAndPropagate o f t).1.expire_index = idxDelete o.expire_index t f := rfl

theorem good_passiveExpire {o : HashObj} (ro : Bool) (now : Int) (hg : GoodObj o) :
    GoodObj (passiveExpire ro now o).1 := by
  obtain ⟨hnd, hInv, hnn⟩ := hg
  unfold passiveExpire
  by_cases hro : ro = true
  · simpa [hro] using ⟨hnd, hInv, hnn⟩
  · rw [Bool.not_eq_true] at hro
    refine ⟨?_, ?_, ?_⟩
    · simp only [hro, Bool.false_eq_true, if_false, KeysNodup]
      exact hnd.sublist ((sublist_hfilterAlive now o.hash).map Prod.fst)
    · simp only [hro, Bool.false_eq_true, if_false, InvP]
      intro t f
      rw [mem_idxFilterAlive]
      constructor
      · rintro ⟨hm, hal⟩
        obtain ⟨v, hv, hexp, ht0⟩ := (hInv t f).mp hm
        exact ⟨v, hget_hfilterAlive_alive hv (by rw [hexp]; exact hal), hexp, ht0⟩
      · rintro ⟨v, hv, hexp, ht0⟩
        have hr := hget_hfilterAlive_rev hnd hv
        exact ⟨(hInv t f).mpr ⟨v, hr.1, hexp, ht0⟩, by rw [← hexp]; exact hr.2⟩
    · simp only [hro, Bool.false_eq_true, if_false, NonnegExp]
      intro e he
      exact hnn e ((sublist_hfilterAlive now o.hash).mem he)

theorem good_deleteAndPropagate {o : HashObj} {f : String} {v : TairHashVal}
    (hg : GoodObj o) (hv : hget o.hash f = some v) :
    GoodObj (deleteAndPropagate o f v.expire).1 := by
  obtain ⟨hnd, hInv, hnn⟩ := hg
  refine ⟨?_, ?_, ?_⟩
  · exact hnd.sublist ((sublist_hdel o.hash f).map Prod.fst)
  · intro t g
    simp only [deleteAndPropagate_idx, deleteAndPropagate_hash, mem_idxDelete, hget_hdel]
    by_cases hgf : g = f
    · subst hgf
      rw [if_pos rfl]
      constructor
      · rintro ⟨hm, hne⟩
        obtain ⟨w, hw, hexp, ht0⟩ := (hInv t g).mp hm
        rw [hv] at hw
        obtain rfl : w = v := by simpa using hw.symm
        exact absurd (by rw [hexp]) hne
      · rintro ⟨w, hw, _, _⟩
        cases hw
    · rw [if_neg hgf]
      constructor
      · rintro ⟨hm, _⟩
        exact (hInv t g).mp hm
      · intro hx
        refine ⟨(hInv t g).mpr hx, ?_⟩
        intro hq
        exact hgf (congrArg Prod.snd hq)
  · intro e he
    exact hnn e ((sublist_hdel o.hash f).mem he)

theorem fieldExpire_state {ro : Bool} {now : Int} {o : HashObj} {f : String} :
    (fieldExpireIfNeeded ro now o f).2.1 = o ∨
      ∃ v, hget o.hash f = some v ∧
        (fieldExpireIfNeeded ro now o f).2.1 = (deleteAndPropagate o f v.expire).1 := by
  unfold fieldExpireIfNeeded
  cases hv : hget o.hash f with
  | none => exact Or.inl rfl
  | some v =>
    by_cases h0 : v.expire = 0
    · simp [h0]
    · by_cases hro : ro = true
      · simp [h0, hro]
      · rw [Bool.not_eq_true] at hro
        by_cases hlt : now < v.expire
        · simp [h0, hro, hlt]
        · refine Or.inr ⟨v, rfl, ?_⟩
          simp [h0, hro, hlt]

theorem good_fieldExpire {o : HashObj} (ro : Bool) (now : Int) (f : String)
    (hg : GoodObj o) : GoodObj (fieldExpireIfNeeded ro now o f).2.1 := by
  rcases @fieldExpire_state ro now o f with hs | ⟨v, hv, hs⟩
  · rw [hs]; exact hg
  · rw [hs]; exact good_deleteAndPropagate hg hv

theorem keysNodup_hadd {h : FieldStore} {f : String} {v : TairHashVal}
    (hnd : (h.map Prod.fst).Nodup) (hf : hget h f = none) :
    ((hadd h f v).map Prod.fst).Nodup := by
  unfold hadd
  rw [List.map_append, List.nodup_append]
  refine ⟨hnd, by simp, ?_⟩
  intro a ha hb
  simp only [List.map_cons, List.map_nil, List.mem_singleton] at hb
  subst hb
  exact hget_none_not_mem_keys hf ha

theorem applyWrite_key (o : HashObj) (f : String) (nokey : Bool) (oldExpire ms : Int)
    (keepttl : Bool) (newValue : String) (newVer : Int) :
    (applyWrite o f nokey oldExpire ms keepttl newValue newVer).key = o.key := by
  unfold applyWrite
  by_cases h1 : ms = 0 ∧ keepttl = false
  · obtain ⟨hms0, hk⟩ := h1
    have h2 : ¬ ms > 0 := by omega
    simp [hms0, hk, h2]
  · by_cases h2 : ms > 0
    · by_cases h3 : nokey = true ∨ oldExpire = 0
      · simp [h1, h2, h3]
      · simp [h1, h2, h3]
    · simp [h1, h2]

theorem applyWrite_hash (o : HashObj) (f : String) (nokey : Bool) (oldExpire ms : Int)
    (keepttl : Bool) (newValue : String) (newVer : Int) :
    (applyWrite o f nokey oldExpire ms keepttl newValue newVer).hash =
      (if nokey = true
        then hadd o.hash f ⟨newValue, newVer, finalExpire oldExpire ms keepttl⟩
        else hput o.hash f ⟨newValue, newVer, finalExpire oldExpire ms keepttl⟩) := by
  unfold applyWrite finalExpire
  by_cases h1 : ms = 0 ∧ keepttl = false
  · obtain ⟨hms0, hk⟩ := h1
    have h2 : ¬ ms > 0 := by omega
    simp [hms0, hk, h2]
  · by_cases h2 : ms > 0
    · by_cases h3 : nokey = true ∨ oldExpire = 0
      · simp [h1, h2, h3]
      · simp [h1, h2, h3]
    · simp [h1, h2]

theorem applyWrite_idx (o : HashObj) (f : String) (nokey : Bool) (oldExpire ms : Int)
    (keepttl : Bool) (newValue : String) (newVer : Int) :
    (applyWrite o f nokey oldExpire ms keepttl newValue newVer).expire_index =
      (if ms > 0 then
        (if nokey = true ∨ oldExpire = 0 then idxInsert o.expire_index ms f
         else idxInsert (idxDelete o.expire_index oldExpire f) ms f)
      else if ms = 0 ∧ keepttl = false then idxDelete o.expire_index oldExpire f
      else o.expire_index) := by
  unfold applyWrite
  by_cases h1 : ms = 0 ∧ keepttl = false
  · obtain ⟨hms0, hk⟩ := h1
    have h2 : ¬ ms > 0 := by omega
    simp [hms0, hk, h2]
  · by_cases h2 : ms > 0
    · by_cases h3 : nokey = true ∨ oldExpire = 0
      · simp [h1, h2, h3]
      · simp [h1, h2, h3]
    · simp [h1, h2]


theorem good_applyWrite {o : HashObj} {f : String} {nokey : Bool} {oldExpire ms : Int}
    {keepttl : Bool} {newValue : String} {newVer : Int}
    (hg : GoodObj o) (hms : 0 ≤ ms) (hold : 0 ≤ oldExpire)
    (hv : if nokey = true then hget o.hash f = none ∧ oldExpire = 0
          else ∃ v, hget o.hash f = some v ∧ v.expire = oldExpire) :
    GoodObj (applyWrite o f nokey oldExpire ms keepttl newValue newVer) := by
  obtain ⟨hnd, hInv, hnn⟩ := hg
  set vv : TairHashVal := ⟨newValue, newVer, finalExpire oldExpire ms keepttl⟩ with hvv
  have hexp2 : 0 ≤ finalExpire oldExpire ms keepttl := by
    unfold finalExpire
    by_cases h1 : ms = 0 ∧ keepttl = false <;> by_cases h2 : ms > 0 <;>
      simp [h1, h2] <;> omega
  refine ⟨?_, ?_, ?_⟩
  · unfold KeysNodup
    rw [applyWrite_hash]
    cases nokey with
    | true =>
      rw [if_pos rfl]
      rw [if_pos rfl] at hv
      exact keysNodup_hadd hnd hv.1
    | false =>
      rw [if_neg (by simp)]
      rw [map_fst_hput]
      exact hnd
  · intro t g
    rw [applyWrite_idx, applyWrite_hash]
    by_cases hgf : g = f
    · subst hgf
      have hlhs_new : hget (if nokey = true then hadd o.hash g vv else hput o.hash g vv) g
          = some vv := by
        cases nokey with
        | true =>
          rw [if_pos rfl]
          rw [if_pos rfl] at hv
          rw [hget_hadd, hv.1]
          simp
        | false =>
          rw [if_neg (by simp)]
          rw [if_neg (by simp)] at hv
          obtain ⟨v, hv1, _⟩ := hv
          rw [hget_hput, if_pos rfl, hv1]
          rfl
      have hold_mem : ∀ t : Int, ((t, g) ∈ o.expire_index ↔ t = oldExpire ∧ t ≠ 0) := by
        intro t
        rw [hInv t g]
        cases nokey with
        | true =>
          rw [if_pos rfl] at hv
          constructor
          · rintro ⟨w, hw, _, _⟩
            rw [hv.1] at hw
            cases hw
          · rintro ⟨rfl, ht0⟩
            exact absurd hv.2 ht0
        | false =>
          rw [if_neg (by simp)] at hv
          obtain ⟨v, hv1, hv2⟩ := hv
          constructor
          · rintro ⟨w, hw, hexp, ht0⟩
            rw [hv1] at hw
            obtain rfl : w = v := by simpa using hw.symm
            exact ⟨by rw [← hexp, hv2], ht0⟩
          · rintro ⟨rfl, ht0⟩
            exact ⟨v, hv1, hv2, ht0⟩
      by_cases h2 : ms > 0
      · rw [if_pos h2]
        have hfe : finalExpire oldExpire ms keepttl = ms := by
          unfold finalExpire
          by_cases h1 : ms = 0 ∧ keepttl = false
          · omega
          · simp [h1, h2]
        by_cases h3 : nokey = true ∨ oldExpire = 0
        · rw [if_pos h3, hlhs_new]
          constructor
          · intro hm
            rcases (mem_idxInsert _ _ _ _).mp hm with heq | hm2
            · obtain rfl : t = ms := congrArg Prod.fst heq
              exact ⟨vv, rfl, by rw [hvv]; simpa using hfe, by omega⟩
            · obtain ⟨rfl, ht0⟩ := (hold_mem t).mp hm2
              rcases h3 with hk | h0
              · cases nokey with
                | true =>
                  rw [if_pos rfl] at hv
                  exact absurd hv.2 ht0
                | false => exact absurd hk (by decide)
              · exact absurd h0 ht0
          · rintro ⟨w, hw, hexp, ht0⟩
            obtain rfl : w = vv := by simpa using hw.symm
            rw [mem_idxInsert]
            left
            rw [← hexp, hvv]
            simpa using hfe
        · rw [if_neg h3, hlhs_new]
          constructor
          · intro hm
            rcases (mem_idxInsert _ _ _ _).mp hm with heq | hm2
            · obtain rfl : t = ms := congrArg Prod.fst heq
              exact ⟨vv, rfl, by rw [hvv]; simpa using hfe, by omega⟩
            · obtain ⟨hm3, hne⟩ := (mem_idxDelete _ _ _ _).mp hm2
              obtain ⟨rfl, ht0⟩ := (hold_mem t).mp hm3
              exact absurd rfl hne
          · rintro ⟨w, hw, hexp, ht0⟩
            obtain rfl : w = vv := by simpa using hw.symm
            rw [mem_idxInsert]
            left
            rw [← hexp, hvv]
            simpa using hfe
      · rw [if_neg h2]
        by_cases h1 : ms = 0 ∧ keepttl = false
        · rw [if_pos h1, hlhs_new]
          have hfe : finalExpire oldExpire ms keepttl = 0 := by
            unfold finalExpire
            simp [h1, h2]
          constructor
          · intro hm
            obtain ⟨hm2, hne⟩ := (mem_idxDelete _ _ _ _).mp hm
            obtain ⟨rfl, ht0⟩ := (hold_mem t).mp hm2
            exact absurd rfl hne
          · rintro ⟨w, hw, hexp, ht0⟩
            obtain rfl : w = vv := by simpa using hw.symm
            rw [hvv] at hexp
            simp only at hexp
            rw [hfe] at hexp
            exact absurd hexp.symm ht0
        · rw [if_neg h1, hlhs_new]
          have hfe : finalExpire oldExpire ms keepttl = oldExpire := by
            unfold finalExpire
            simp [h1, h2]
          rw [hold_mem t]
          constructor
          · rintro ⟨rfl, ht0⟩
            exact ⟨vv, rfl, by rw [hvv]; simpa using hfe, ht0⟩
          · rintro ⟨w, hw, hexp, ht0⟩
            obtain rfl : w = vv := by simpa using hw.symm
            rw [hvv] at hexp
            simp only at hexp
            rw [hfe] at hexp
            exact ⟨hexp.symm, ht0⟩
    · have hlhs_old : hget (if nokey = true then hadd o.hash f vv else hput o.hash f vv) g
          = hget o.hash g := by
        cases nokey with
        | true =>
          rw [if_pos rfl, hget_hadd]
          cases hw : hget o.hash g with
          | some w => rfl
          | none => rw [if_neg (fun hx => hgf hx.symm)]
        | false =>
          rw [if_neg (by simp), hget_hput, if_neg hgf]
      have hpair : ∀ s : Int, (t, g) ≠ (s, f) := fun s hq => hgf (congrArg Prod.snd hq)
      have hmem_same :
          ((t, g) ∈ (if ms > 0 then
              (if nokey = true ∨ oldExpire = 0 then idxInsert o.expire_index ms f
               else idxInsert (idxDelete o.expire_index oldExpire f) ms f)
            else if ms = 0 ∧ keepttl = false then idxDelete o.expire_index oldExpire f
            else o.expire_index) ↔ (t, g) ∈ o.expire_index) := by
        by_cases h2 : ms > 0
        · rw [if_pos h2]
          by_cases h3 : nokey = true ∨ oldExpire = 0
          · rw [if_pos h3, mem_idxInsert]
            constructor
            · rintro (heq | hm)
              · exact absurd heq (hpair ms)
              · exact hm
            · exact Or.inr
          · rw [if_neg h3, mem_idxInsert, mem_idxDelete]
            constructor
            · rintro (heq | ⟨hm, _⟩)
              · exact absurd heq (hpair ms)
              · exact hm
            · exact fun hm => Or.inr ⟨hm, hpair oldExpire⟩
        · rw [if_neg h2]
          by_cases h1 : ms = 0 ∧ keepttl = false
          · rw [if_pos h1, mem_idxDelete]
            constructor
            · exact fun hm => hm.1
            · exact fun hm => ⟨hm, hpair oldExpire⟩
          · rw [if_neg h1]
      rw [hmem_same, hlhs_old]
      exact hInv t g
  · intro e he
    rw [applyWrite_hash] at he
    cases nokey with
    | true =>
      rw [if_pos rfl] at he
      rcases mem_hadd he with hm | rfl
      · exact hnn e hm
      · simpa using hexp2
    | false =>
      rw [if_neg (by simp)] at he
      rcases mem_hput he with hm | rfl
      · exact hnn e hm
      · simpa using hexp2

theorem goodObj_congr {x y : HashObj} (hh : x.hash = y.hash)
    (hi : x.expire_index = y.expire_index) (hg : GoodObj x) : GoodObj y := by
  obtain ⟨hnd, hInv, hnn⟩ := hg
  refine ⟨?_, ?_, ?_⟩
  · unfold KeysNodup at *
    rw [← hh]
    exact hnd
  · intro t g
    rw [← hi, ← hh]
    exact hInv t g
  · intro e he
    rw [← hh] at he
    exact hnn e he

theorem good_empty (k : String) :
    GoodObj { key := k, hash := [], expire_index := [], gindex := none } := by
  refine ⟨by simp [KeysNodup], ?_, ?_⟩
  · intro t f
    simp [hget]
  · intro e he
    simp at he

theorem computeMs_nonneg {now : Int} {expireArg : Option Int} {exSec absExpire : Bool}
    (hnow : 0 ≤ now) (harg : 0 ≤ expireArg.getD 0) :
    0 ≤ computeMs now expireArg exSec absExpire := by
  unfold computeMs
  by_cases h0 : 0 < expireArg.getD 0
  · by_cases hsec : exSec = true <;> by_cases habs : absExpire = true <;>
      simp [h0, hsec, habs] <;> omega
  · by_cases h1 : expireArg.isSome = true ∧ expireArg.getD 0 = 0 <;>
      simp [h0, h1]

theorem not_badSetArgs_expire {e : Option Int} {m : VerMode} {v : Int}
    (h : ¬ badSetArgs e m v) : 0 ≤ e.getD 0 := by
  unfold badSetArgs at h
  push_neg at h
  exact h.1

theorem good_delPattern {o : HashObj} {f : String} {v : TairHashVal}
    (hg : GoodObj o) (hv : hget o.hash f = some v) :
    GoodObj { (if v.expire > 0 then algDelete o f v.expire else o) with
              hash := hdel (if v.expire > 0 then algDelete o f v.expire else o).hash f } := by
  by_cases hpos : v.expire > 0
  · rw [if_pos hpos]
    refine goodObj_congr (x := (deleteAndPropagate o f v.expire).1) ?_ ?_
      (good_deleteAndPropagate hg hv)
    · simp
    · simp
  · rw [if_neg hpos]
    obtain ⟨hnd, hInv, hnn⟩ := hg
    have h0 : v.expire = 0 := by
      have := hnn _ (hget_mem hv)
      simp only at this
      omega
    refine ⟨?_, ?_, ?_⟩
    · exact hnd.sublist ((sublist_hdel o.hash f).map Prod.fst)
    · intro t g
      simp only [hget_hdel]
      by_cases hgf : g = f
      · subst hgf
        rw [if_pos rfl]
        constructor
        · intro hm
          obtain ⟨w, hw, hexp, ht0⟩ := (hInv t g).mp hm
          rw [hv] at hw
          obtain rfl : w = v := by simpa using hw.symm
          exact absurd (hexp ▸ h0 : t = 0).symm (fun hx => ht0 hx.symm)
        · rintro ⟨w, hw, _, _⟩
          cases hw
      · rw [if_neg hgf]
        exact hInv t g
    · intro e he
      exact hnn e ((sublist_hdel o.hash f).mem he)

theorem good_exhdelStep {ro : Bool} {now : Int} {k : String}
    {acc : HashObj × Int × List ReplCmd} {f : String}
    (hg : GoodObj acc.1) : GoodObj (exhdelStep ro now k acc f).1 := by
  unfold exhdelStep
  have hg1 := good_fieldExpire (o := acc.1) ro now f hg
  dsimp only
  cases hv : hget (fieldExpireIfNeeded ro now acc.1 f).2.1.hash f with
  | none => simp only [hv]; exact hg1
  | some v => simp only [hv]; exact good_delPattern hg1 hv

theorem good_hdel_loop (ro : Bool) (now : Int) (k : String) (fs : List String) :
    ∀ acc : HashObj × Int × List ReplCmd, GoodObj acc.1 →
      GoodObj (fs.foldl (exhdelStep ro now k) acc).1 := by
  induction fs with
  | nil => intro acc h; simpa using h
  | cons f rest ih =>
    intro acc h
    rw [List.foldl_cons]
    exact ih _ (good_exhdelStep h)

theorem good_exhdelWithVerStep {ro : Bool} {now : Int} {k : String}
    {acc : HashObj × Int × List ReplCmd} {fv : String × Int}
    (hg : GoodObj acc.1) : GoodObj (exhdelWithVerStep ro now k acc fv).1 := by
  unfold exhdelWithVerStep
  have hg1 := good_fieldExpire (o := acc.1) ro now fv.1 hg
  dsimp only
  cases hv : hget (fieldExpireIfNeeded ro now acc.1 fv.1).2.1.hash fv.1 with
  | none => simp only [hv]; exact hg1
  | some v =>
    simp only [hv]
    by_cases hver : fv.2 = 0 ∨ fv.2 = v.version
    · rw [if_pos hver]
      exact good_delPattern hg1 hv
    · rw [if_neg hver]
      exact hg1

theorem good_hdelWithVer_loop (ro : Bool) (now : Int) (k : String)
    (fvs : List (String × Int)) :
    ∀ acc : HashObj × Int × List ReplCmd, GoodObj acc.1 →
      GoodObj (fvs.foldl (exhdelWithVerStep ro now k) acc).1 := by
  induction fvs with
  | nil => intro acc h; simpa using h
  | cons fv rest ih =>
    intro acc h
    rw [List.foldl_cons]
    exact ih _ (good_exhdelWithVerStep h)

theorem good_persistPattern {o : HashObj} {f : String} {v : TairHashVal}
    (hg : GoodObj o) (hv : hget o.hash f = some v) :
    GoodObj { algDelete o f v.expire with
              hash := hput (algDelete o f v.expire).hash f { v with expire := 0 } } := by
  obtain ⟨hnd, hInv, hnn⟩ := hg
  refine ⟨?_, ?_, ?_⟩
  · unfold KeysNodup
    simp only [algDelete_hash, map_fst_hput]
    exact hnd
  · intro t g
    simp only [algDelete_idx, algDelete_hash, mem_idxDelete, hget_hput]
    by_cases hgf : g = f
    · subst hgf
      rw [if_pos rfl, hv]
      constructor
      · rintro ⟨hm, hne⟩
        obtain ⟨w, hw, hexp, ht0⟩ := (hInv t g).mp hm
        rw [hv] at hw
        obtain rfl : w = v := by simpa using hw.symm
        exact absurd (by rw [hexp]) hne
      · rintro ⟨w, hw, hexp, ht0⟩
        obtain rfl : w = { v with expire := 0 } := by simpa using hw.symm
        simp only at hexp
        exact absurd hexp.symm ht0
    · rw [if_neg hgf]
      constructor
      · rintro ⟨hm, _⟩
        exact (hInv t g).mp hm
      · intro hx
        exact ⟨(hInv t g).mpr hx, fun hq => hgf (congrArg Prod.snd hq)⟩
  · intro e he
    simp only [algDelete_hash] at he
    rcases mem_hput he with hm | rfl
    · exact hnn e hm
    · simp

theorem exhsetFinish_fst (now : Int) (o : HashObj) (k f value : String) (opt : SetOpts)
    (nokey : Bool) (v : TairHashVal) (repl : List ReplCmd) :
    (exhsetFinish now o k f value opt nokey v repl).1 =
      some (applyWrite o f nokey v.expire
        (computeMs now opt.expireArg opt.exSec opt.absExpire) opt.keepttl value
        (if opt.verMode = VerMode.withAbs ∨ opt.verMode = VerMode.withGt
          then opt.version else v.version + 1)) := rfl

theorem good_exhsetBody {ro : Bool} {now : Int} {o0 : HashObj} {k f value : String}
    {opt : SetOpts} {repl0 : List ReplCmd}
    (hnow : 0 ≤ now) (harg : 0 ≤ opt.expireArg.getD 0) (hg : GoodObj o0) :
    GoodSt (exhsetBody ro now o0 k f value opt repl0).1 := by
  unfold exhsetBody
  have hg1 := good_fieldExpire (o := o0) ro now f hg
  dsimp only
  cases hv : hget (fieldExpireIfNeeded ro now o0 f).2.1.hash f with
  | none =>
    simp only [hv]
    by_cases hxx : opt.xx = true
    · rw [if_pos hxx]
      exact hg1
    · rw [if_neg hxx, exhsetFinish_fst]
      refine good_applyWrite hg1 (computeMs_nonneg hnow harg) (le_refl 0) ?_
      rw [if_pos rfl]
      exact ⟨hv, rfl⟩
  | some v =>
    simp only [hv]
    by_cases hnx : opt.nx = true
    · rw [if_pos hnx]
      exact hg1
    · rw [if_neg hnx]
      by_cases hv1 : opt.verMode = VerMode.withVer ∧ opt.version ≠ 0 ∧ opt.version ≠ v.version
      · rw [if_pos hv1]
        exact hg1
      · rw [if_neg hv1]
        by_cases hv2 : opt.verMode = VerMode.withGt ∧ opt.version ≤ v.version
        · rw [if_pos hv2]
          exact hg1
        · rw [if_neg hv2, exhsetFinish_fst]
          refine good_applyWrite hg1 (computeMs_nonneg hnow harg)
            (hg1.2.2 _ (hget_mem hv)) ?_
          rw [if_neg (by decide)]
          exact ⟨v, hv, rfl⟩

theorem good_hset {ro : Bool} {now : Int} {st : Option HashObj} {k f value : String}
    {opt : SetOpts} (hnow : 0 ≤ now) (hst : GoodSt st) :
    GoodSt (TairHashTypeHset_RedisCommand ro now st k f value opt).1 := by
  unfold TairHashTypeHset_RedisCommand
  cases st with
  | none =>
    by_cases hbad : badSetArgs opt.expireArg opt.verMode opt.version
    · rw [if_pos hbad]
      trivial
    · rw [if_neg hbad]
      by_cases hxx : opt.xx = true
      · rw [if_pos hxx]
        trivial
      · rw [if_neg hxx]
        exact good_exhsetBody hnow (not_badSetArgs_expire hbad) (good_empty k)
  | some o =>
    have hg1 := good_passiveExpire (o := o) ro now hst
    dsimp only
    by_cases hbad : badSetArgs opt.expireArg opt.verMode opt.version
    · rw [if_pos hbad]
      exact hg1
    · rw [if_neg hbad]
      exact good_exhsetBody hnow (not_badSetArgs_expire hbad) hg1

theorem good_hdel {ro : Bool} {now : Int} {st : Option HashObj} {k : String}
    {fs : List String} (hst : GoodSt st) :
    GoodSt (TairHashTypeHdel_RedisCommand ro now st k fs).1 := by
  unfold TairHashTypeHdel_RedisCommand
  cases st with
  | none => trivial
  | some o => exact good_hdel_loop ro now k fs (o, 0, []) hst

theorem good_hdelWithVer {ro : Bool} {now : Int} {st : Option HashObj} {k : String}
    {fvs : List (String × Int)} (hst : GoodSt st) :
    GoodSt (TairHashTypeHdelWithVer_RedisCommand ro now st k fvs).1 := by
  unfold TairHashTypeHdelWithVer_RedisCommand
  cases st with
  | none => trivial
  | some o => exact good_hdelWithVer_loop ro now k fvs (o, 0, []) hst

theorem good_hpersist {ro : Bool} {now : Int} {st : Option HashObj} {f : String}
    (hst : GoodSt st) :
    GoodSt (TairHashTypeHpersist_RedisCommand ro now st f).1 := by
  unfold TairHashTypeHpersist_RedisCommand
  cases st with
  | none => trivial
  | some o =>
    have hg1 := good_fieldExpire (o := o) ro now f hst
    dsimp only
    by_cases hb : (fieldExpireIfNeeded ro now o f).1 = true
    · rw [if_pos hb]
      exact hg1
    · rw [if_neg hb]
      cases hv : hget (fieldExpireIfNeeded ro now o f).2.1.hash f with
      | none => simp only [hv]; exact hg1
      | some v =>
        simp only [hv]
        by_cases h0 : v.expire = 0
        · rw [if_pos h0]
          exact hg1
        · rw [if_neg h0]
          exact good_persistPattern hg1 hv

theorem isExpire_false_of_alive {now e : Int} (h : e = 0 ∨ now < e) :
    isExpire now e = false := by
  unfold isExpire
  by_cases he : e = 0
  · simp [he]
  · have hlt : now < e := by
      rcases h with h | h
      · exact absurd h he
      · exact h
    simp [he]
    omega

theorem fieldExpire_alive {ro : Bool} {now : Int} {o : HashObj} {f : String} {v : TairHashVal}
    (hv : hget o.hash f = some v) (hal : v.expire = 0 ∨ now < v.expire) :
    fieldExpireIfNeeded ro now o f = (false, o, []) := by
  unfold fieldExpireIfNeeded
  simp only [hv]
  by_cases h0 : v.expire = 0
  · rw [if_pos h0]
  · rw [if_neg h0]
    have hlt : now < v.expire := by
      rcases hal with h | h
      · exact absurd h h0
      · exact h
    by_cases hro : ro = true
    · rw [if_pos hro]
      have hd : decide (now > v.expire) = false := by
        simp
        omega
      rw [hd]
    · rw [if_neg hro, if_pos hlt]

theorem fieldExpire_absent {ro : Bool} {now : Int} {o : HashObj} {f : String}
    (hv : hget o.hash f = none) :
    fieldExpireIfNeeded ro now o f = (false, o, []) := by
  unfold fieldExpireIfNeeded
  simp only [hv]

theorem passiveExpire_key (ro : Bool) (now : Int) (o : HashObj) :
    (passiveExpire ro now o).1.key = o.key := by
  unfold passiveExpire
  by_cases hro : ro = true <;> simp [hro]

theorem passiveExpire_hget_alive {ro : Bool} {now : Int} {o : HashObj} {f : String}
    {v : TairHashVal} (hv : hget o.hash f = some v)
    (hal : isExpire now v.expire = false) :
    hget (passiveExpire ro now o).1.hash f = some v := by
  unfold passiveExpire
  by_cases hro : ro = true
  · simp [hro, hv]
  · simp only [hro, Bool.false_eq_true, if_false]
    exact hget_hfilterAlive_alive hv hal

theorem passiveExpire_hget_none {ro : Bool} {now : Int} {o : HashObj} {f : String}
    (hv : hget o.hash f = none) :
    hget (passiveExpire ro now o).1.hash f = none := by
  unfold passiveExpire
  by_cases hro : ro = true
  · simp [hro, hv]
  · simp only [hro, Bool.false_eq_true, if_false]
    exact hget_hfilterAlive_none hv

theorem passiveExpire_idx_f {ro : Bool} {now : Int} {o : HashObj} {f : String}
    {v : TairHashVal} (hInv : InvP o) (hv : hget o.hash f = some v)
    (hal : isExpire now v.expire = false) (t : Int) :
    ((t, f) ∈ (passiveExpire ro now o).1.expire_index ↔ (t, f) ∈ o.expire_index) := by
  unfold passiveExpire
  by_cases hro : ro = true
  · simp [hro]
  · simp only [hro, Bool.false_eq_true, if_false]
    rw [mem_idxFilterAlive]
    constructor
    · exact And.left
    · intro hm
      refine ⟨hm, ?_⟩
      obtain ⟨w, hw, hexp, _⟩ := (hInv t f).mp hm
      rw [hv] at hw
      obtain rfl : w = v := by simpa using hw.symm
      exact hexp ▸ hal

/-- C1: counterexample.  The claim is false as stated: EXHDELREPL
(TairHashTypeHdelRepl_RedisCommand) removes the field from the Field Store
without touching the Local Expiry Index, so on a key holding one field with
expire 5 — whose index invariant holds — it leaves the orphaned index entry
(5, "f") behind and the invariant is broken. -/
theorem c1_exhdelrepl_breaks_invariant :
    InvP { key := "k", hash := [("f", ⟨"v", 1, 5⟩)], expire_index := [(5, "f")],
           gindex := some 5 } ∧
    (TairHashTypeHdelRepl_RedisCommand
        (some { key := "k", hash := [("f", ⟨"v", 1, 5⟩)], expire_index := [(5, "f")],
                gindex := some 5 }) "k" "f").1 =
      some { key := "k", hash := [], expire_index := [(5, "f")], gindex := some 5 } ∧
    ¬ InvP { key := "k", hash := [], expire_index := [(5, "f")], gindex := some 5 } := by
  refine ⟨checkInv_sound (by decide), by decide, ?_⟩
  intro h
  obtain ⟨v, hv, -, -⟩ := (h 5 "f").mp (by decide)
  simp [hget] at hv

/-- C1 (amended): for every key and field, an entry (expire-time, field-name)
exists in the key's Local Expiry Index iff the corresponding Field Store
entry has that nonzero expire, and this invariant (carried inside GoodObj,
together with unique field names and nonnegative expires) is preserved by
EXHSET, EXHDEL, EXHDELWITHVER, EXHPERSIST and expiration-driven deletion
(fieldExpireIfNeeded / passiveExpire) — but not by EXHDELREPL, the internal
command whose active-expire caller removes the index entry itself before
issuing it. -/
theorem c1_index_invariant_preserved
    (ro : Bool) (now : Int) (st : Option HashObj) (k f value : String) (opt : SetOpts)
    (fs : List String) (fvs : List (String × Int)) (o : HashObj)
    (hnow : 0 ≤ now) (hst : GoodSt st) (hg : GoodObj o) :
    GoodSt (TairHashTypeHset_RedisCommand ro now st k f value opt).1 ∧
    GoodSt (TairHashTypeHdel_RedisCommand ro now st k fs).1 ∧
    GoodSt (TairHashTypeHdelWithVer_RedisCommand ro now st k fvs).1 ∧
    GoodSt (TairHashTypeHpersist_RedisCommand ro now st f).1 ∧
    GoodObj (fieldExpireIfNeeded ro now o f).2.1 ∧
    GoodObj (passiveExpire ro now o).1 :=
  ⟨good_hset hnow hst, good_hdel hst, good_hdelWithVer hst, good_hpersist hst,
   good_fieldExpire ro now f hg, good_passiveExpire ro now hg⟩

/-- C1: witness for the amended invariant-preservation theorem at a concrete
state holding one expiring field. -/
theorem c1_index_invariant_preserved_witness :
    GoodSt (TairHashTypeHset_RedisCommand false 10
      (some { key := "k", hash := [("f", ⟨"v", 1, 25⟩)], expire_index := [(25, "f")],
              gindex := some 25 }) "k" "f" "w"
      { nx := false, xx := false, expireArg := some 3, exSec := false, absExpire := false,
        verMode := VerMode.noCheck, version := 0, keepttl := false }).1 ∧
    GoodSt (TairHashTypeHdel_RedisCommand false 10
      (some { key := "k", hash := [("f", ⟨"v", 1, 25⟩)], expire_index := [(25, "f")],
              gindex := some 25 }) "k" ["f"]).1 ∧
    GoodSt (TairHashTypeHdelWithVer_RedisCommand false 10
      (some { key := "k", hash := [("f", ⟨"v", 1, 25⟩)], expire_index := [(25, "f")],
              gindex := some 25 }) "k" [("f", 1)]).1 ∧
    GoodSt (TairHashTypeHpersist_RedisCommand false 10
      (some { key := "k", hash := [("f", ⟨"v", 1, 25⟩)], expire_index := [(25, "f")],
              gindex := some 25 }) "f").1 ∧
    GoodObj (fieldExpireIfNeeded false 10
      { key := "k", hash := [("f", ⟨"v", 1, 25⟩)], expire_index := [(25, "f")],
        gindex := some 25 } "f").2.1 ∧
    GoodObj (passiveExpire false 10
      { key := "k", hash := [("f", ⟨"v", 1, 25⟩)], expire_index := [(25, "f")],
        gindex := some 25 }).1 :=
  c1_index_invariant_preserved false 10
    (some { key := "k", hash := [("f", ⟨"v", 1, 25⟩)], expire_index := [(25, "f")],
            gindex := some 25 }) "k" "f" "w"
    { nx := false, xx := false, expireArg := some 3, exSec := false, absExpire := false,
      verMode := VerMode.noCheck, version := 0, keepttl := false }
    ["f"] [("f", 1)]
    { key := "k", hash := [("f", ⟨"v", 1, 25⟩)], expire_index := [(25, "f")],
      gindex := some 25 }
    (by decide)
    ⟨by unfold KeysNodup; decide, checkInv_sound (by decide), checkNonneg_sound (by decide)⟩
    ⟨by unfold KeysNodup; decide, checkInv_sound (by decide), checkNonneg_sound (by decide)⟩

/-- C3: code-bug evaluation.  An EXHINCRBY on an empty key at now = 500 with
PXAT 1000 stores the absolute expire 1000 in the field, but the EXHSET it
hands to replication carries PXAT 1500 = stored expire + now (tairhash.c line
1528 adds RedisModule_Milliseconds() to the already-absolute milliseconds),
and EXHINCRBYFLOAT (line 1772) does the same — so the replicated PXAT does
not equal the stored absolute expire, contradicting the claim. -/
theorem c3_incr_replication_pxat_bug :
    ((TairHashTypeHincrBy_RedisCommand false 500 none "k" "f" 1
        { expireArg := some 1000, exSec := false, absExpire := true,
          verMode := VerMode.noCheck, version := 0, minArg := none, maxArg := none,
          keepttl := false }).1.bind (fun o => hget o.hash "f")).map TairHashVal.expire
      = some 1000 ∧
    (TairHashTypeHincrBy_RedisCommand false 500 none "k" "f" 1
        { expireArg := some 1000, exSec := false, absExpire := true,
          verMode := VerMode.noCheck, version := 0, minArg := none, maxArg := none,
          keepttl := false }).2.2
      = [ReplCmd.exhset "k" "f" "1" (some 1) (some 1500)] ∧
    ((TairHashTypeHincrByFloat_RedisCommand false 500 none "k" "f" (LD.fin 1)
        { expireArg := some 1000, exSec := false, absExpire := true,
          verMode := VerMode.noCheck, version := 0, minArg := none, maxArg := none,
          keepttl := false }).1.bind (fun o => hget o.hash "f")).map TairHashVal.expire
      = some 1000 ∧
    (∃ s, (TairHashTypeHincrByFloat_RedisCommand false 500 none "k" "f" (LD.fin 1)
        { expireArg := some 1000, exSec := false, absExpire := true,
          verMode := VerMode.noCheck, version := 0, minArg := none, maxArg := none,
          keepttl := false }).2.2
      = [ReplCmd.exhset "k" "f" s (some 1) (some 1500)]) ∧
    (1500 : Int) ≠ 1000 := by
  refine ⟨by decide, by decide, by decide, ⟨ld2string ((LD.fin 0).add (LD.fin 1)), rfl⟩, by decide⟩

/-- C10: EXHLEN without the noexp option replies with the raw Field Store
size — the count of currently-expired fields plus the count of live ones, so
already-expired but not yet removed fields are included — while with noexp it
replies with the count of fields not yet expired; in both forms the state is
returned untouched and nothing is replicated. -/
theorem c10_exhlen (now : Int) (o : HashObj) :
    (TairHashTypeHlen_RedisCommand now (some o) false).1 = some o ∧
    (TairHashTypeHlen_RedisCommand now (some o) true).1 = some o ∧
    (TairHashTypeHlen_RedisCommand now (some o) false).2.2 = [] ∧
    (TairHashTypeHlen_RedisCommand now (some o) true).2.2 = [] ∧
    (TairHashTypeHlen_RedisCommand now (some o) false).2.1 =
      Reply.int ((o.hash.length : Nat) : Int) ∧
    (TairHashTypeHlen_RedisCommand now (some o) true).2.1 =
      Reply.int ((o.hash.countP (fun e => ¬ isExpire now e.2.expire) : Nat) : Int) ∧
    o.hash.length = o.hash.countP (fun e => isExpire now e.2.expire)
      + o.hash.countP (fun e => ¬ isExpire now e.2.expire) :=
  ⟨rfl, rfl, rfl, rfl, rfl, rfl,
   List.length_eq_countP_add_countP (fun e => isExpire now e.2.expire) o.hash⟩

/-- C8: on a writable tick the handler records the duration as the last-tick
statistic, raises the maximum when exceeded, recomputes the average as the
accumulated sum over the tick count exactly on every tenth accumulated tick
(then resets both accumulators, leaving them untouched otherwise), and
re-arms the timer exactly when active expiration is enabled; a read-only
tick leaves the statistics untouched and still re-arms on the same
condition.  (The fixed re-arm period and the bounded namespace sweep live in
the host timer API and the algorithm headers and are not modelled.) -/
theorem c8_active_expire_stats (d : Nat) (s : ExpireStats) :
    (activeExpireTimerHandler false d s).stats.last = d ∧
    (activeExpireTimerHandler false d s).stats.maxT = max s.maxT d ∧
    (activeExpireTimerHandler false d s).stats.enable = s.enable ∧
    (activeExpireTimerHandler false d s).rearmed = s.enable ∧
    (activeExpireTimerHandler true d s).stats = s ∧
    (activeExpireTimerHandler true d s).rearmed = s.enable ∧
    ((s.loop_cnt + 1) % 10 = 0 →
      (activeExpireTimerHandler false d s).stats.avg = (s.total + d) / (s.loop_cnt + 1) ∧
      (activeExpireTimerHandler false d s).stats.loop_cnt = 0 ∧
      (activeExpireTimerHandler false d s).stats.total = 0) ∧
    ((s.loop_cnt + 1) % 10 ≠ 0 →
      (activeExpireTimerHandler false d s).stats.avg = s.avg ∧
      (activeExpireTimerHandler false d s).stats.loop_cnt = s.loop_cnt + 1 ∧
      (activeExpireTimerHandler false d s).stats.total = s.total + d) := by
  unfold activeExpireTimerHandler
  have hmax : (if s.maxT < d then d else s.maxT) = max s.maxT d := by
    by_cases h : s.maxT < d
    · rw [if_pos h, Nat.max_eq_right (Nat.le_of_lt h)]
    · rw [if_neg h, Nat.max_eq_left (Nat.le_of_not_lt h)]
  by_cases h10 : (s.loop_cnt + 1) % 10 = 0
  · simp [h10, hmax]
  · simp [h10, hmax]

/-- C8: witness for the tick statistics at a concrete tenth tick. -/
theorem c8_active_expire_stats_witness :
    (activeExpireTimerHandler false 7
      { last := 0, maxT := 3, avg := 0, loop_cnt := 9, total := 50, enable := true
      }).stats.avg = 5 ∧
    (activeExpireTimerHandler false 7
      { last := 0, maxT := 3, avg := 0, loop_cnt := 9, total := 50, enable := true
      }).stats.loop_cnt = 0 ∧
    (activeExpireTimerHandler false 7
      { last := 0, maxT := 3, avg := 0, loop_cnt := 9, total := 50, enable := true
      }).stats.total = 0 := by
  have h := c8_active_expire_stats 7
    { last := 0, maxT := 3, avg := 0, loop_cnt := 9, total := 50, enable := true }
  have h2 := h.2.2.2.2.2.2.1 (by decide)
  exact ⟨h2.1, h2.2.1, h2.2.2⟩

theorem rdbLoad_key_aux (L : List RdbField) (o : HashObj) :
    (L.foldl rdbLoadStep o).key = o.key := by
  induction L generalizing o with
  | nil => rfl
  | cons fld rest ih =>
    rw [List.foldl_cons, ih]
    unfold rdbLoadStep
    by_cases h : fld.expire ≠ 0
    · rw [if_pos h]
      rfl
    · rw [if_neg h]

theorem rdbLoad_hash_aux (L : List RdbField) (o : HashObj) :
    (L.foldl rdbLoadStep o).hash =
      o.hash ++ L.map (fun fld => (fld.skey, (⟨fld.value, fld.version, fld.expire⟩ : TairHashVal))) := by
  induction L generalizing o with
  | nil => simp
  | cons fld rest ih =>
    rw [List.foldl_cons, ih]
    have hstep : (rdbLoadStep o fld).hash =
        o.hash ++ [(fld.skey, (⟨fld.value, fld.version, fld.expire⟩ : TairHashVal))] := by
      unfold rdbLoadStep
      by_cases h : fld.expire ≠ 0
      · rw [if_pos h]
        rfl
      · rw [if_neg h]
        rfl
    rw [hstep, List.append_assoc]
    rfl

theorem rdbLoad_idx_aux (L : List RdbField) (o : HashObj) (q : Int × String) :
    (q ∈ (L.foldl rdbLoadStep o).expire_index ↔
      q ∈ o.expire_index ∨ ∃ fld ∈ L, fld.expire ≠ 0 ∧ q = (fld.expire, fld.skey)) := by
  induction L generalizing o with
  | nil => simp
  | cons fld rest ih =>
    rw [List.foldl_cons, ih]
    have hstep : (q ∈ (rdbLoadStep o fld).expire_index ↔
        (fld.expire ≠ 0 ∧ q = (fld.expire, fld.skey)) ∨ q ∈ o.expire_index) := by
      unfold rdbLoadStep
      by_cases h : fld.expire ≠ 0
      · rw [if_pos h]
        show q ∈ idxInsert o.expire_index fld.expire fld.skey ↔ _
        rw [mem_idxInsert]
        tauto
      · rw [if_neg h]
        tauto
    rw [hstep]
    simp only [List.mem_cons]
    constructor
    · rintro ((h | h) | ⟨fld2, hm, h1, h2⟩)
      · exact Or.inr ⟨fld, Or.inl rfl, h⟩
      · exact Or.inl h
      · exact Or.inr ⟨fld2, Or.inr hm, h1, h2⟩
    · rintro (h | ⟨fld2, rfl | hm, h1, h2⟩)
      · exact Or.inl (Or.inr h)
      · exact Or.inl (Or.inl ⟨h1, h2⟩)
      · exact Or.inr ⟨fld2, hm, h1, h2⟩

theorem rdbLoad_gindex_aux (L : List RdbField) (o : HashObj)
    (h : o.gindex = idxMinTime o.expire_index) :
    (L.foldl rdbLoadStep o).gindex = idxMinTime (L.foldl rdbLoadStep o).expire_index := by
  induction L generalizing o with
  | nil => simpa using h
  | cons fld rest ih =>
    rw [List.foldl_cons]
    apply ih
    unfold rdbLoadStep
    by_cases hx : fld.expire ≠ 0
    · rw [if_pos hx]
      rfl
    · rw [if_neg hx]
      simpa using h

theorem idxMinTime_isSome_of_mem {idx : ExpireIndex} {q : Int × String}
    (h : q ∈ idx) : (idxMinTime idx).isSome = true := by
  cases idx with
  | nil => cases h
  | cons p rest => rfl

/-- C4: snapshot round trip.  Saving a key (field count, owning key name,
then per field the name, version, expire and value) and loading the result
reproduces the owning key name and the exact field store — every field keeps
an identical (value, version, expire) — and every field with nonzero expire
is reinserted into the Local Expiry Index and gives the key a Namespace
Expiry Index entry. -/
theorem c4_rdb_roundtrip (o : HashObj) :
    (TairHashTypeRdbLoad (TairHashTypeRdbSave o)).key = o.key ∧
    (TairHashTypeRdbLoad (TairHashTypeRdbSave o)).hash = o.hash ∧
    (∀ f v, hget o.hash f = some v →
      hget (TairHashTypeRdbLoad (TairHashTypeRdbSave o)).hash f = some v) ∧
    (∀ f v, hget o.hash f = some v → v.expire ≠ 0 →
      (v.expire, f) ∈ (TairHashTypeRdbLoad (TairHashTypeRdbSave o)).expire_index ∧
      ((TairHashTypeRdbLoad (TairHashTypeRdbSave o)).gindex).isSome = true) := by
  have hhash : (TairHashTypeRdbLoad (TairHashTypeRdbSave o)).hash = o.hash := by
    unfold TairHashTypeRdbLoad TairHashTypeRdbSave
    rw [rdbLoad_hash_aux]
    simp only [List.map_map, List.nil_append]
    exact List.map_id o.hash
  refine ⟨?_, hhash, ?_, ?_⟩
  · unfold TairHashTypeRdbLoad
    rw [rdbLoad_key_aux]
    rfl
  · intro f v hv
    rw [hhash]
    exact hv
  · intro f v hv hne
    have hmem : (f, v) ∈ o.hash := hget_mem hv
    have hidx : (v.expire, f) ∈ (TairHashTypeRdbLoad (TairHashTypeRdbSave o)).expire_index := by
      unfold TairHashTypeRdbLoad TairHashTypeRdbSave
      rw [rdbLoad_idx_aux]
      right
      refine ⟨⟨f, v.version, v.expire, v.value⟩, ?_, hne, rfl⟩
      simp only [List.mem_map]
      exact ⟨(f, v), hmem, rfl⟩
    refine ⟨hidx, ?_⟩
    have hg : (TairHashTypeRdbLoad (TairHashTypeRdbSave o)).gindex =
        idxMinTime (TairHashTypeRdbLoad (TairHashTypeRdbSave o)).expire_index := by
      unfold TairHashTypeRdbLoad
      exact rdbLoad_gindex_aux _ _ rfl
    rw [hg]
    exact idxMinTime_isSome_of_mem hidx

/-- C4: witness for the round trip on a key with one expiring and one
non-expiring field. -/
theorem c4_rdb_roundtrip_witness :
    (5, "f") ∈ (TairHashTypeRdbLoad (TairHashTypeRdbSave
      { key := "k", hash := [("f", ⟨"v", 2, 5⟩), ("g", ⟨"w", 1, 0⟩)],
        expire_index := [(5, "f")], gindex := some 5 })).expire_index ∧
    ((TairHashTypeRdbLoad (TairHashTypeRdbSave
      { key := "k", hash := [("f", ⟨"v", 2, 5⟩), ("g", ⟨"w", 1, 0⟩)],
        expire_index := [(5, "f")], gindex := some 5 })).gindex).isSome = true ∧
    hget (TairHashTypeRdbLoad (TairHashTypeRdbSave
      { key := "k", hash := [("f", ⟨"v", 2, 5⟩), ("g", ⟨"w", 1, 0⟩)],
        expire_index := [(5, "f")], gindex := some 5 })).hash "f" = some ⟨"v", 2, 5⟩ := by
  have h := c4_rdb_roundtrip
    { key := "k", hash := [("f", ⟨"v", 2, 5⟩), ("g", ⟨"w", 1, 0⟩)],
      expire_index := [(5, "f")], gindex := some 5 }
  have h4 := h.2.2.2 "f" ⟨"v", 2, 5⟩ (by decide) (by decide)
  exact ⟨h4.1, h4.2, h.2.2.1 "f" ⟨"v", 2, 5⟩ (by decide)⟩

/-- C7: on a read-only instance, the expired-field check never touches the
store, the indices or the replication stream; it reports the field as
logically expired exactly when it exists with a nonzero expire strictly in
the past.  The deletion-and-propagation path is reached only on a writable
primary: there, a due field is removed and an EXHDEL is emitted. -/
theorem c7_replica_no_self_delete (now : Int) (o : HashObj) (f : String) :
    (fieldExpireIfNeeded true now o f).2.1 = o ∧
    (fieldExpireIfNeeded true now o f).2.2 = [] ∧
    ((fieldExpireIfNeeded true now o f).1 = true ↔
      ∃ v, hget o.hash f = some v ∧ v.expire ≠ 0 ∧ now > v.expire) ∧
    (∀ v, hget o.hash f = some v → v.expire ≠ 0 → now ≥ v.expire →
      (fieldExpireIfNeeded false now o f).2.1 = (deleteAndPropagate o f v.expire).1 ∧
      (fieldExpireIfNeeded false now o f).2.2 = [ReplCmd.exhdel o.key f]) := by
  refine ⟨?_, ?_, ?_, ?_⟩
  · unfold fieldExpireIfNeeded
    cases hv : hget o.hash f with
    | none => rfl
    | some v =>
      by_cases h0 : v.expire = 0
      · simp [h0]
      · simp [h0]
  · unfold fieldExpireIfNeeded
    cases hv : hget o.hash f with
    | none => rfl
    | some v =>
      by_cases h0 : v.expire = 0
      · simp [h0]
      · simp [h0]
  · unfold fieldExpireIfNeeded
    cases hv : hget o.hash f with
    | none =>
      simp
    | some v =>
      by_cases h0 : v.expire = 0
      · simp [h0]
      · simp [h0]
  · intro v hv hne hge
    unfold fieldExpireIfNeeded
    rw [hv]
    have hlt : ¬ now < v.expire := by omega
    simp [hne, hlt, deleteAndPropagate]

/-- C7: witness — an expired field on a replica is reported but kept; on a
writable primary the same state loses the field and emits an EXHDEL. -/
theorem c7_replica_no_self_delete_witness :
    (fieldExpireIfNeeded true 10
      { key := "k", hash := [("f", ⟨"v", 1, 5⟩)], expire_index := [(5, "f")],
        gindex := some 5 } "f").2.1 =
      { key := "k", hash := [("f", ⟨"v", 1, 5⟩)], expire_index := [(5, "f")],
        gindex := some 5 } ∧
    (fieldExpireIfNeeded false 10
      { key := "k", hash := [("f", ⟨"v", 1, 5⟩)], expire_index := [(5, "f")],
        gindex := some 5 } "f").2.2 = [ReplCmd.exhdel "k" "f"] := by
  have h := c7_replica_no_self_delete 10
    { key := "k", hash := [("f", ⟨"v", 1, 5⟩)], expire_index := [(5, "f")],
      gindex := some 5 } "f"
  exact ⟨h.1, (h.2.2.2 ⟨"v", 1, 5⟩ (by decide) (by decide) (by decide)).2⟩

theorem exhset_run_found {ro : Bool} {now : Int} {o : HashObj} {k f value : String}
    {opt : SetOpts} {v : TairHashVal}
    (hbad : ¬ badSetArgs opt.expireArg opt.verMode opt.version)
    (hv : hget o.hash f = some v)
    (halive : v.expire = 0 ∨ now < v.expire)
    (hnx : opt.nx = false)
    (hver1 : ¬ (opt.verMode = VerMode.withVer ∧ opt.version ≠ 0 ∧ opt.version ≠ v.version))
    (hver2 : ¬ (opt.verMode = VerMode.withGt ∧ opt.version ≤ v.version)) :
    TairHashTypeHset_RedisCommand ro now (some o) k f value opt =
      exhsetFinish now (passiveExpire ro now o).1 k f value opt false v
        ((passiveExpire ro now o).2 ++ []) := by
  have hv0 : hget (passiveExpire ro now o).1.hash f = some v :=
    passiveExpire_hget_alive hv (isExpire_false_of_alive halive)
  have hfe := @fieldExpire_alive ro _ _ _ _ hv0 halive
  unfold TairHashTypeHset_RedisCommand
  dsimp only
  rw [if_neg hbad]
  unfold exhsetBody
  simp only [hfe, hv0]
  rw [if_neg (by simp [hnx]), if_neg hver1, if_neg hver2]

theorem exhset_run_absent {ro : Bool} {now : Int} {o : HashObj} {k f value : String}
    {opt : SetOpts}
    (hbad : ¬ badSetArgs opt.expireArg opt.verMode opt.version)
    (hv : hget o.hash f = none)
    (hxx : opt.xx = false) :
    TairHashTypeHset_RedisCommand ro now (some o) k f value opt =
      exhsetFinish now (passiveExpire ro now o).1 k f value opt true ⟨"", 0, 0⟩
        ((passiveExpire ro now o).2 ++ []) := by
  have hv0 : hget (passiveExpire ro now o).1.hash f = none :=
    passiveExpire_hget_none hv
  have hfe := @fieldExpire_absent ro now _ _ hv0
  unfold TairHashTypeHset_RedisCommand
  dsimp only
  rw [if_neg hbad]
  unfold exhsetBody
  simp only [hfe, hv0]
  rw [if_neg (by simp [hxx])]

theorem exhset_run_verconflict {ro : Bool} {now : Int} {o : HashObj} {k f value : String}
    {opt : SetOpts} {v : TairHashVal}
    (hbad : ¬ badSetArgs opt.expireArg opt.verMode opt.version)
    (hv : hget o.hash f = some v)
    (halive : v.expire = 0 ∨ now < v.expire)
    (hnx : opt.nx = false)
    (hconf : (opt.verMode = VerMode.withVer ∧ opt.version ≠ 0 ∧ opt.version ≠ v.version) ∨
             (opt.verMode = VerMode.withGt ∧ opt.version ≤ v.version)) :
    TairHashTypeHset_RedisCommand ro now (some o) k f value opt =
      (some (passiveExpire ro now o).1, Reply.err Err.versionErr,
       (passiveExpire ro now o).2 ++ []) := by
  have hv0 : hget (passiveExpire ro now o).1.hash f = some v :=
    passiveExpire_hget_alive hv (isExpire_false_of_alive halive)
  have hfe := @fieldExpire_alive ro _ _ _ _ hv0 halive
  unfold TairHashTypeHset_RedisCommand
  dsimp only
  rw [if_neg hbad]
  unfold exhsetBody
  simp only [hfe, hv0]
  rw [if_neg (by simp [hnx])]
  rcases hconf with hc | hc
  · rw [if_pos hc]
  · have hver1 : ¬ (opt.verMode = VerMode.withVer ∧ opt.version ≠ 0 ∧ opt.version ≠ v.version) := by
      rintro ⟨h1, -, -⟩
      rw [hc.1] at h1
      cases h1
    rw [if_neg hver1, if_pos hc]

theorem exhincrby_run_found {ro : Bool} {now : Int} {o : HashObj} {k f : String}
    {incr : Int} {opt : IncrOpts} {v : TairHashVal} {cur : Int}
    (hbad : ¬ badIncrArgs opt)
    (hminmax : ¬ (opt.minArg.isSome ∧ opt.maxArg.isSome ∧ opt.maxArg.getD 0 < opt.minArg.getD 0))
    (hv : hget o.hash f = some v)
    (halive : v.expire = 0 ∨ now < v.expire)
    (hparse : string2ll v.value = some cur)
    (hver1 : ¬ (opt.verMode = VerMode.withVer ∧ opt.version ≠ 0 ∧ opt.version ≠ v.version))
    (hver2 : ¬ (opt.verMode = VerMode.withGt ∧ opt.version ≤ v.version)) :
    TairHashTypeHincrBy_RedisCommand ro now (some o) k f incr opt =
      exhincrbyTail now (passiveExpire ro now o).1 k f incr opt false v cur
        ((passiveExpire ro now o).2 ++ []) := by
  have hv0 : hget (passiveExpire ro now o).1.hash f = some v :=
    passiveExpire_hget_alive hv (isExpire_false_of_alive halive)
  have hfe := @fieldExpire_alive ro _ _ _ _ hv0 halive
  unfold TairHashTypeHincrBy_RedisCommand
  dsimp only
  rw [if_neg hbad, if_neg hminmax]
  simp only [hfe, hv0, hparse]
  rw [if_neg hver1, if_neg hver2]

theorem exhincrby_run_verconflict {ro : Bool} {now : Int} {o : HashObj} {k f : String}
    {incr : Int} {opt : IncrOpts} {v : TairHashVal} {cur : Int}
    (hbad : ¬ badIncrArgs opt)
    (hminmax : ¬ (opt.minArg.isSome ∧ opt.maxArg.isSome ∧ opt.maxArg.getD 0 < opt.minArg.getD 0))
    (hv : hget o.hash f = some v)
    (halive : v.expire = 0 ∨ now < v.expire)
    (hparse : string2ll v.value = some cur)
    (hconf : (opt.verMode = VerMode.withVer ∧ opt.version ≠ 0 ∧ opt.version ≠ v.version) ∨
             (opt.verMode = VerMode.withGt ∧ opt.version ≤ v.version)) :
    TairHashTypeHincrBy_RedisCommand ro now (some o) k f incr opt =
      (some (passiveExpire ro now o).1, Reply.err Err.versionErr,
       (passiveExpire ro now o).2 ++ []) := by
  have hv0 : hget (passiveExpire ro now o).1.hash f = some v :=
    passiveExpire_hget_alive hv (isExpire_false_of_alive halive)
  have hfe := @fieldExpire_alive ro _ _ _ _ hv0 halive
  unfold TairHashTypeHincrBy_RedisCommand
  dsimp only
  rw [if_neg hbad, if_neg hminmax]
  simp only [hfe, hv0, hparse]
  rcases hconf with hc | hc
  · rw [if_pos hc]
  · have hver1 : ¬ (opt.verMode = VerMode.withVer ∧ opt.version ≠ 0 ∧ opt.version ≠ v.version) := by
      rintro ⟨h1, -, -⟩
      rw [hc.1] at h1
      cases h1
    rw [if_neg hver1, if_pos hc]

theorem exhincrby_run_nokey {ro : Bool} {now : Int} {o : HashObj} {k f : String}
    {incr : Int} {opt : IncrOpts}
    (hbad : ¬ badIncrArgs opt)
    (hminmax : ¬ (opt.minArg.isSome ∧ opt.maxArg.isSome ∧ opt.maxArg.getD 0 < opt.minArg.getD 0))
    (hv : hget o.hash f = none) :
    TairHashTypeHincrBy_RedisCommand ro now (some o) k f incr opt =
      exhincrbyTail now (passiveExpire ro now o).1 k f incr opt true ⟨"0", 0, 0⟩ 0
        ((passiveExpire ro now o).2 ++ []) := by
  have hv0 : hget (passiveExpire ro now o).1.hash f = none :=
    passiveExpire_hget_none hv
  have hfe := @fieldExpire_absent ro now _ _ hv0
  unfold TairHashTypeHincrBy_RedisCommand
  dsimp only
  rw [if_neg hbad, if_neg hminmax]
  simp only [hfe, hv0]

/-- C2: a write carrying a version check that fails — VER v with v ≠ 0 and
v ≠ stored version, or GT v with v ≤ stored version — is rejected with the
version-conflict error and has no effect: the field keeps its exact stored
record (value, version, expire) and its expiry-index entries, for both EXHSET
and EXHINCRBY; and the sentinel VER 0 performs no check — the same EXHSET is
accepted and bumps the version by one.  (The rejected command still runs the
passive-expire sweep the source performs first, which can only remove
already-expired fields, never the checked live field.) -/
theorem c2_version_conflict_rejected
    (ro : Bool) (now : Int) (o : HashObj) (k f value : String) (opt : SetOpts)
    (iopt : IncrOpts) (incr cur : Int) (v : TairHashVal)
    (hInv : InvP o)
    (hv : hget o.hash f = some v)
    (halive : v.expire = 0 ∨ now < v.expire) :
    ((¬ badSetArgs opt.expireArg opt.verMode opt.version) → opt.nx = false →
      ((opt.verMode = VerMode.withVer ∧ opt.version ≠ 0 ∧ opt.version ≠ v.version) ∨
       (opt.verMode = VerMode.withGt ∧ opt.version ≤ v.version)) →
      (TairHashTypeHset_RedisCommand ro now (some o) k f value opt).2.1 =
        Reply.err Err.versionErr ∧
      ∃ o', (TairHashTypeHset_RedisCommand ro now (some o) k f value opt).1 = some o' ∧
        hget o'.hash f = some v ∧
        (∀ t, ((t, f) ∈ o'.expire_index ↔ (t, f) ∈ o.expire_index))) ∧
    ((¬ badIncrArgs iopt) →
      (¬ (iopt.minArg.isSome ∧ iopt.maxArg.isSome ∧ iopt.maxArg.getD 0 < iopt.minArg.getD 0)) →
      string2ll v.value = some cur →
      ((iopt.verMode = VerMode.withVer ∧ iopt.version ≠ 0 ∧ iopt.version ≠ v.version) ∨
       (iopt.verMode = VerMode.withGt ∧ iopt.version ≤ v.version)) →
      (TairHashTypeHincrBy_RedisCommand ro now (some o) k f incr iopt).2.1 =
        Reply.err Err.versionErr ∧
      ∃ o', (TairHashTypeHincrBy_RedisCommand ro now (some o) k f incr iopt).1 = some o' ∧
        hget o'.hash f = some v ∧
        (∀ t, ((t, f) ∈ o'.expire_index ↔ (t, f) ∈ o.expire_index))) ∧
    (opt.verMode = VerMode.withVer → opt.version = 0 → opt.nx = false →
      (¬ opt.expireArg.getD 0 < 0) →
      (TairHashTypeHset_RedisCommand ro now (some o) k f value opt).2.1 = Reply.int 0 ∧
      ∃ o', (TairHashTypeHset_RedisCommand ro now (some o) k f value opt).1 = some o' ∧
        (hget o'.hash f).map TairHashVal.version = some (v.version + 1)) := by
  have hal : isExpire now v.expire = false := isExpire_false_of_alive halive
  have hv0 : hget (passiveExpire ro now o).1.hash f = some v :=
    passiveExpire_hget_alive hv hal
  refine ⟨?_, ?_, ?_⟩
  · intro hbad hnx hconf
    rw [exhset_run_verconflict hbad hv halive hnx hconf]
    exact ⟨rfl, (passiveExpire ro now o).1, rfl, hv0,
      fun t => passiveExpire_idx_f hInv hv hal t⟩
  · intro hbad hmm hparse hconf
    rw [exhincrby_run_verconflict hbad hmm hv halive hparse hconf]
    exact ⟨rfl, (passiveExpire ro now o).1, rfl, hv0,
      fun t => passiveExpire_idx_f hInv hv hal t⟩
  · intro hm0 hv0eq hnx hexp
    have hbad : ¬ badSetArgs opt.expireArg opt.verMode opt.version := by
      unfold badSetArgs
      push_neg
      refine ⟨by omega, by omega, ?_⟩
      intro hmm
      rcases hmm with hmm | hmm <;> rw [hm0] at hmm <;> cases hmm
    have hver1 : ¬ (opt.verMode = VerMode.withVer ∧ opt.version ≠ 0 ∧ opt.version ≠ v.version) := by
      rintro ⟨-, hne, -⟩
      exact hne hv0eq
    have hver2 : ¬ (opt.verMode = VerMode.withGt ∧ opt.version ≤ v.version) := by
      rintro ⟨hgt, -⟩
      rw [hm0] at hgt
      cases hgt
    rw [exhset_run_found hbad hv halive hnx hver1 hver2]
    refine ⟨rfl, ?_⟩
    refine ⟨_, rfl, ?_⟩
    rw [applyWrite_hash]
    rw [if_neg (by decide), hget_hput, if_pos rfl, hv0]
    have : ¬ (opt.verMode = VerMode.withAbs ∨ opt.verMode = VerMode.withGt) := by
      rintro (h | h) <;> rw [hm0] at h <;> cases h
    simp [this]

/-- C2: witness — a VER 7 EXHSET and EXHINCRBY against stored version 3 are
both rejected with the version error and the field keeps its record. -/
theorem c2_version_conflict_rejected_witness :
    (TairHashTypeHset_RedisCommand false 100
      (some { key := "k", hash := [("f", ⟨"10", 3, 0⟩)], expire_index := [],
              gindex := none }) "k" "f" "nv"
      { nx := false, xx := false, expireArg := none, exSec := false, absExpire := false,
        verMode := VerMode.withVer, version := 7, keepttl := false }).2.1 =
      Reply.err Err.versionErr ∧
    (TairHashTypeHincrBy_RedisCommand false 100
      (some { key := "k", hash := [("f", ⟨"10", 3, 0⟩)], expire_index := [],
              gindex := none }) "k" "f" 1
      { expireArg := none, exSec := false, absExpire := false,
        verMode := VerMode.withVer, version := 7, minArg := none, maxArg := none,
        keepttl := false }).2.1 = Reply.err Err.versionErr := by
  have h := c2_version_conflict_rejected false 100
    { key := "k", hash := [("f", ⟨"10", 3, 0⟩)], expire_index := [], gindex := none }
    "k" "f" "nv"
    { nx := false, xx := false, expireArg := none, exSec := false, absExpire := false,
      verMode := VerMode.withVer, version := 7, keepttl := false }
    { expireArg := none, exSec := false, absExpire := false,
      verMode := VerMode.withVer, version := 7, minArg := none, maxArg := none,
      keepttl := false }
    1 10 ⟨"10", 3, 0⟩ (checkInv_sound (by decide)) (by decide) (Or.inl (by decide))
  exact ⟨(h.1 (by decide) (by decide) (Or.inl (by decide))).1,
         (h.2.1 (by decide) (by decide) (by decide) (Or.inl (by decide))).1⟩

theorem string2ll_range {s : String} {n : Int} (h : string2ll s = some n) :
    LLONG_MIN ≤ n ∧ n ≤ LLONG_MAX := by
  unfold string2ll at h
  cases hl : s.data with
  | nil =>
    rw [hl] at h
    cases h
  | cons c rest =>
    rw [hl] at h
    simp only [string2llAux] at h
    by_cases h1 : c = Char.ofNat 45
    · rw [if_pos h1] at h
      cases rest with
      | nil => cases h
      | cons c2 rest2 =>
        cases hd : digitsToNat (c2 :: rest2) 0 with
        | none =>
          simp only [hd] at h
          cases h
        | some m =>
          simp only [hd] at h
          by_cases h3 : (m : Int) ≤ 2 ^ 63
          · rw [if_pos h3] at h
            obtain rfl : -(m : Int) = n := by simpa using h
            unfold LLONG_MIN LLONG_MAX
            constructor <;> omega
          · rw [if_neg h3] at h
            cases h
    · rw [if_neg h1] at h
      cases hd : digitsToNat (c :: rest) 0 with
      | none =>
        simp only [hd] at h
        cases h
      | some m =>
        simp only [hd] at h
        by_cases h3 : (m : Int) < 2 ^ 63
        · rw [if_pos h3] at h
          obtain rfl : (m : Int) = n := by simpa using h
          unfold LLONG_MIN LLONG_MAX
          constructor <;> omega
        · rw [if_neg h3] at h
          cases h

theorem incrOverflows_iff {cur incr : Int} {mn mx : Option Int}
    (hcur : LLONG_MIN ≤ cur ∧ cur ≤ LLONG_MAX)
    (hincr : LLONG_MIN ≤ incr ∧ incr ≤ LLONG_MAX) :
    (incrOverflows cur incr mn mx ↔
      (cur + incr < LLONG_MIN ∨ LLONG_MAX < cur + incr ∨
       (∃ M, mx = some M ∧ M < cur + incr) ∨
       (∃ m, mn = some m ∧ cur + incr < m))) := by
  unfold incrOverflows LLONG_MIN LLONG_MAX at *
  cases mn <;> cases mx <;> simp <;> omega

theorem exhincrbyfloat_run_found {ro : Bool} {now : Int} {o : HashObj} {k f : String}
    {incr : LD} {opt : IncrFOpts} {v : TairHashVal} {cur : LD}
    (hbad : ¬ badIncrFArgs opt)
    (hminmax : ¬ (opt.minArg.isSome ∧ opt.maxArg.isSome ∧
      LD.ltb (opt.maxArg.getD LD.nan) (opt.minArg.getD LD.nan)))
    (hv : hget o.hash f = some v)
    (halive : v.expire = 0 ∨ now < v.expire)
    (hparse : string2ld v.value = some cur)
    (hver1 : ¬ (opt.verMode = VerMode.withVer ∧ opt.version ≠ 0 ∧ opt.version ≠ v.version))
    (hver2 : ¬ (opt.verMode = VerMode.withGt ∧ opt.version ≤ v.version)) :
    TairHashTypeHincrByFloat_RedisCommand ro now (some o) k f incr opt =
      exhincrbyFloatTail now (passiveExpire ro now o).1 k f incr opt false v cur
        ((passiveExpire ro now o).2 ++ []) := by
  have hv0 : hget (passiveExpire ro now o).1.hash f = some v :=
    passiveExpire_hget_alive hv (isExpire_false_of_alive halive)
  have hfe := @fieldExpire_alive ro _ _ _ _ hv0 halive
  unfold TairHashTypeHincrByFloat_RedisCommand
  dsimp only
  rw [if_neg hbad, if_neg hminmax]
  simp only [hfe, hv0, hparse]
  rw [if_neg hver1, if_neg hver2]

/-- C5: EXHINCRBY is rejected with the overflow error exactly when the exact
sum of the stored integer and the increment leaves the signed 64-bit range or
violates a supplied MIN/MAX bound, and EXHINCRBYFLOAT exactly when the sum is
not finite or violates a supplied bound; in every rejected case the field
keeps its stored record and its expiry-index entries.  (Stated for writes
that reach the arithmetic: the field exists and is not expired, its value
parses, the arguments validate, and no version check is requested.) -/
theorem c5_incr_overflow_iff
    (ro : Bool) (now : Int) (o : HashObj) (k f : String)
    (incr : Int) (opt : IncrOpts) (v : TairHashVal) (cur : Int)
    (fincr : LD) (fopt : IncrFOpts) (fcur : LD)
    (hInv : InvP o)
    (hv : hget o.hash f = some v)
    (halive : v.expire = 0 ∨ now < v.expire)
    (hincr : LLONG_MIN ≤ incr ∧ incr ≤ LLONG_MAX) :
    ((¬ badIncrArgs opt) →
      (¬ (opt.minArg.isSome ∧ opt.maxArg.isSome ∧ opt.maxArg.getD 0 < opt.minArg.getD 0)) →
      string2ll v.value = some cur →
      opt.verMode = VerMode.noCheck →
      (((TairHashTypeHincrBy_RedisCommand ro now (some o) k f incr opt).2.1 =
          Reply.err Err.overflowErr) ↔
        (cur + incr < LLONG_MIN ∨ LLONG_MAX < cur + incr ∨
         (∃ M, opt.maxArg = some M ∧ M < cur + incr) ∨
         (∃ m, opt.minArg = some m ∧ cur + incr < m))) ∧
      ((TairHashTypeHincrBy_RedisCommand ro now (some o) k f incr opt).2.1 =
          Reply.err Err.overflowErr →
        ∃ o', (TairHashTypeHincrBy_RedisCommand ro now (some o) k f incr opt).1 = some o' ∧
          hget o'.hash f = some v ∧
          (∀ t, ((t, f) ∈ o'.expire_index ↔ (t, f) ∈ o.expire_index)))) ∧
    ((¬ badIncrFArgs fopt) →
      (¬ (fopt.minArg.isSome ∧ fopt.maxArg.isSome ∧
        LD.ltb (fopt.maxArg.getD LD.nan) (fopt.minArg.getD LD.nan))) →
      string2ld v.value = some fcur →
      fopt.verMode = VerMode.noCheck →
      (((TairHashTypeHincrByFloat_RedisCommand ro now (some o) k f fincr fopt).2.1 =
          Reply.err Err.overflowErr) ↔
        ((fcur.add fincr).isFinite = false ∨
         (∃ M, fopt.maxArg = some M ∧ LD.ltb M (fcur.add fincr) = true) ∨
         (∃ m, fopt.minArg = some m ∧ LD.ltb (fcur.add fincr) m = true))) ∧
      ((TairHashTypeHincrByFloat_RedisCommand ro now (some o) k f fincr fopt).2.1 =
          Reply.err Err.overflowErr →
        ∃ o', (TairHashTypeHincrByFloat_RedisCommand ro now (some o) k f fincr fopt).1 =
            some o' ∧
          hget o'.hash f = some v ∧
          (∀ t, ((t, f) ∈ o'.expire_index ↔ (t, f) ∈ o.expire_index)))) := by
  have hal : isExpire now v.expire = false := isExpire_false_of_alive halive
  have hv0 : hget (passiveExpire ro now o).1.hash f = some v :=
    passiveExpire_hget_alive hv hal
  constructor
  · intro hbad hmm hparse hnv
    have hver1 : ¬ (opt.verMode = VerMode.withVer ∧ opt.version ≠ 0 ∧ opt.version ≠ v.version) := by
      rintro ⟨h1, -, -⟩
      rw [hnv] at h1
      cases h1
    have hver2 : ¬ (opt.verMode = VerMode.withGt ∧ opt.version ≤ v.version) := by
      rintro ⟨h1, -⟩
      rw [hnv] at h1
      cases h1
    rw [exhincrby_run_found hbad hmm hv halive hparse hver1 hver2]
    unfold exhincrbyTail
    by_cases hov : incrOverflows cur incr opt.minArg opt.maxArg
    · rw [if_pos hov]
      refine ⟨?_, ?_⟩
      · constructor
        · intro _
          exact (incrOverflows_iff (string2ll_range hparse) hincr).mp hov
        · intro _
          rfl
      · intro _
        exact ⟨(passiveExpire ro now o).1, rfl, hv0,
          fun t => passiveExpire_idx_f hInv hv hal t⟩
    · rw [if_neg hov]
      refine ⟨?_, ?_⟩
      · constructor
        · intro hre
          cases hre
        · intro hcond
          exact absurd ((incrOverflows_iff (string2ll_range hparse) hincr).mpr hcond) hov
      · intro hre
        cases hre
  · intro hbad hmm hparse hnv
    have hver1 : ¬ (fopt.verMode = VerMode.withVer ∧ fopt.version ≠ 0 ∧ fopt.version ≠ v.version) := by
      rintro ⟨h1, -, -⟩
      rw [hnv] at h1
      cases h1
    have hver2 : ¬ (fopt.verMode = VerMode.withGt ∧ fopt.version ≤ v.version) := by
      rintro ⟨h1, -⟩
      rw [hnv] at h1
      cases h1
    rw [exhincrbyfloat_run_found hbad hmm hv halive hparse hver1 hver2]
    unfold exhincrbyFloatTail
    by_cases hfin : (fcur.add fincr).isFinite = true
    · rw [if_neg (by rw [hfin]; exact fun hx => hx rfl)]
      by_cases hbnd : (fopt.maxArg.isSome ∧ LD.ltb (fopt.maxArg.getD LD.nan) (fcur.add fincr)) ∨
          (fopt.minArg.isSome ∧ LD.ltb (fcur.add fincr) (fopt.minArg.getD LD.nan))
      · rw [if_pos hbnd]
        refine ⟨?_, ?_⟩
        · constructor
          · intro _
            rcases hbnd with ⟨hs, hlt⟩ | ⟨hs, hlt⟩
            · obtain ⟨M, hM⟩ := Option.isSome_iff_exists.mp hs
              right
              left
              exact ⟨M, hM, by rw [hM] at hlt; simpa using hlt⟩
            · obtain ⟨m, hm⟩ := Option.isSome_iff_exists.mp hs
              right
              right
              exact ⟨m, hm, by rw [hm] at hlt; simpa using hlt⟩
          · intro _
            rfl
        · intro _
          exact ⟨(passiveExpire ro now o).1, rfl, hv0,
            fun t => passiveExpire_idx_f hInv hv hal t⟩
      · rw [if_neg hbnd]
        refine ⟨?_, ?_⟩
        · constructor
          · intro hre
            cases hre
          · rintro (hc | ⟨M, hM, hlt⟩ | ⟨m, hm, hlt⟩)
            · rw [hfin] at hc
              cases hc
            · exact absurd (Or.inl ⟨by rw [hM]; rfl, by rw [hM]; simpa using hlt⟩) hbnd
            · exact absurd (Or.inr ⟨by rw [hm]; rfl, by rw [hm]; simpa using hlt⟩) hbnd
        · intro hre
          cases hre
    · rw [if_pos (by rw [Bool.not_eq_true] at hfin; rw [hfin]; exact fun hx => nomatch hx)]
      refine ⟨?_, ?_⟩
      · constructor
        · intro _
          left
          rwa [Bool.not_eq_true] at hfin
        · intro _
          rfl
      · intro _
        exact ⟨(passiveExpire ro now o).1, rfl, hv0,
          fun t => passiveExpire_idx_f hInv hv hal t⟩

/-- C5: witness — incrementing the stored LLONG_MAX by 1 is rejected with the
overflow error, and adding infinity to the stored float value is rejected
with the overflow error. -/
theorem c5_incr_overflow_iff_witness :
    (TairHashTypeHincrBy_RedisCommand false 100
      (some { key := "k", hash := [("f", ⟨"9223372036854775807", 1, 0⟩)],
              expire_index := [], gindex := none }) "k" "f" 1
      { expireArg := none, exSec := false, absExpire := false,
        verMode := VerMode.noCheck, version := 0, minArg := none, maxArg := none,
        keepttl := false }).2.1 = Reply.err Err.overflowErr ∧
    (TairHashTypeHincrByFloat_RedisCommand false 100
      (some { key := "k", hash := [("f", ⟨"9223372036854775807", 1, 0⟩)],
              expire_index := [], gindex := none }) "k" "f" (LD.inf false)
      { expireArg := none, exSec := false, absExpire := false,
        verMode := VerMode.noCheck, version := 0, minArg := none, maxArg := none,
        keepttl := false }).2.1 = Reply.err Err.overflowErr := by
  have h := c5_incr_overflow_iff false 100
    { key := "k", hash := [("f", ⟨"9223372036854775807", 1, 0⟩)],
      expire_index := [], gindex := none } "k" "f" 1
    { expireArg := none, exSec := false, absExpire := false,
      verMode := VerMode.noCheck, version := 0, minArg := none, maxArg := none,
      keepttl := false }
    ⟨"9223372036854775807", 1, 0⟩ 9223372036854775807
    (LD.inf false)
    { expireArg := none, exSec := false, absExpire := false,
      verMode := VerMode.noCheck, version := 0, minArg := none, maxArg := none,
      keepttl := false }
    (LD.fin 9223372036854775807)
    (checkInv_sound (by decide)) (by decide) (Or.inl (by decide)) (by decide)
  refine ⟨((h.1 (by decide) (by decide) (by decide) rfl).1).mpr
            (Or.inr (Or.inl (by decide))), ?_⟩
  exact ((h.2 (by decide) (by decide) (by decide) rfl).1).mpr (Or.inl (by decide))

/-- C6: a request for an immediate (zero-delay) expiration stores the expire
sentinel 1, never 0: the EXHEXPIRE family with time argument 0 and EXHSET
with any expire option set to 0 both leave the field with stored expire
exactly 1, so stored expire 0 keeps meaning "never expires". -/
theorem c6_zero_expire_becomes_one
    (ro : Bool) (now basetime : Int) (unitSec : Bool) (o : HashObj) (k f value : String)
    (v : TairHashVal) (exSec absExpire : Bool)
    (hv : hget o.hash f = some v)
    (halive : v.expire = 0 ∨ now < v.expire) :
    (hget ((tairHashExpireGenericFunc ro now basetime unitSec (some o) k f 0
        ⟨VerMode.noCheck, 0⟩).1.getD o).hash f).map TairHashVal.expire = some 1 ∧
    (hget ((TairHashTypeHset_RedisCommand ro now (some o) k f value
        { nx := false, xx := false, expireArg := some 0, exSec := exSec,
          absExpire := absExpire, verMode := VerMode.noCheck, version := 0,
          keepttl := false }).1.getD o).hash f).map TairHashVal.expire = some 1 := by
  constructor
  · have hfe := @fieldExpire_alive ro _ _ _ _ hv halive
    unfold tairHashExpireGenericFunc
    rw [if_neg (by decide), if_neg (by decide)]
    dsimp only
    simp only [hfe, hv]
    rw [if_neg (show ¬ ((⟨VerMode.noCheck, 0⟩ : ExpOpts).verMode = VerMode.withVer ∧
          (⟨VerMode.noCheck, 0⟩ : ExpOpts).version ≠ 0 ∧
          (⟨VerMode.noCheck, 0⟩ : ExpOpts).version ≠ v.version) from
        fun hc => by cases hc.1)]
    rw [if_neg (show ¬ ((⟨VerMode.noCheck, 0⟩ : ExpOpts).verMode = VerMode.withGt ∧
          (⟨VerMode.noCheck, 0⟩ : ExpOpts).version ≤ v.version) from
        fun hc => by cases hc.1)]
    rw [if_neg (show ¬ (false = true) by decide)]
    rw [if_pos (trivial : True)]
    rw [if_pos (show (1 : Int) > 0 by decide)]
    have hhash : (if v.expire = 0 then algInsert o f 1 else algUpdate o f v.expire 1).hash
        = o.hash := by
      by_cases h0 : v.expire = 0
      · rw [if_pos h0]
        rfl
      · rw [if_neg h0]
        rfl
    show (hget (hput _ f _) f).map TairHashVal.expire = some 1
    rw [hget_hput, if_pos rfl, hhash, hv]
    rfl
  · rw [exhset_run_found (show ¬ badSetArgs (some 0) VerMode.noCheck 0 by decide)
      hv halive rfl (fun hc => by cases hc.1) (fun hc => by cases hc.1)]
    rw [exhsetFinish_fst]
    have hms : computeMs now (some 0) exSec absExpire = 1 := by
      unfold computeMs
      simp
    dsimp only
    rw [hms, Option.getD_some, applyWrite_hash]
    have hfe1 : finalExpire v.expire 1 false = 1 := by
      unfold finalExpire
      norm_num
    have hpv : hget (passiveExpire ro now o).1.hash f = some v :=
      passiveExpire_hget_alive hv (isExpire_false_of_alive halive)
    rw [if_neg (by decide), hget_hput, if_pos rfl, hpv]
    show (some (finalExpire v.expire 1 false) : Option Int) = some 1
    rw [hfe1]

/-- C6: witness — EXHPEXPIRE f 0 and EXHSET f with PX 0 both store expire 1. -/
theorem c6_zero_expire_becomes_one_witness :
    (hget ((tairHashExpireGenericFunc false 100 100 false
        (some { key := "k", hash := [("f", ⟨"v", 1, 0⟩)], expire_index := [],
                gindex := none }) "k" "f" 0 ⟨VerMode.noCheck, 0⟩).1.getD
      { key := "k", hash := [("f", ⟨"v", 1, 0⟩)], expire_index := [],
        gindex := none }).hash "f").map TairHashVal.expire = some 1 ∧
    (hget ((TairHashTypeHset_RedisCommand false 100
        (some { key := "k", hash := [("f", ⟨"v", 1, 0⟩)], expire_index := [],
                gindex := none }) "k" "f" "w"
        { nx := false, xx := false, expireArg := some 0, exSec := false,
          absExpire := false, verMode := VerMode.noCheck, version := 0,
          keepttl := false }).1.getD
      { key := "k", hash := [("f", ⟨"v", 1, 0⟩)], expire_index := [],
        gindex := none }).hash "f").map TairHashVal.expire = some 1 :=
  c6_zero_expire_becomes_one false 100 100 false
    { key := "k", hash := [("f", ⟨"v", 1, 0⟩)], expire_index := [], gindex := none }
    "k" "f" "w" ⟨"v", 1, 0⟩ false false (by decide) (Or.inl (by decide))

/-- C9: EXHSETNX on a present, non-expired field replies 0 and leaves the
field's stored record and its expiry-index entries untouched; EXHSETNX on an
absent field creates it with the given value, version 0 and no expire
(the version counter is not advanced) and replies 1. -/
theorem c9_exhsetnx_frame (ro : Bool) (now : Int) (o : HashObj) (k f value : String)
    (hInv : InvP o) :
    (∀ v, hget o.hash f = some v → isExpire now v.expire = false →
      (TairHashTypeHsetNx_RedisCommand ro now (some o) k f value).2.1 = Reply.int 0 ∧
      ∃ o', (TairHashTypeHsetNx_RedisCommand ro now (some o) k f value).1 = some o' ∧
        hget o'.hash f = some v ∧
        (∀ t, ((t, f) ∈ o'.expire_index ↔ (t, f) ∈ o.expire_index))) ∧
    (hget o.hash f = none →
      (TairHashTypeHsetNx_RedisCommand ro now (some o) k f value).2.1 = Reply.int 1 ∧
      ∃ o', (TairHashTypeHsetNx_RedisCommand ro now (some o) k f value).1 = some o' ∧
        hget o'.hash f = some ⟨value, 0, 0⟩) := by
  constructor
  · intro v hv hal
    have hv0 : hget (passiveExpire ro now o).1.hash f = some v :=
      passiveExpire_hget_alive hv hal
    unfold TairHashTypeHsetNx_RedisCommand
    dsimp only
    simp only [hv0]
    exact ⟨trivial, (passiveExpire ro now o).1, rfl, hv0,
      fun t => passiveExpire_idx_f hInv hv hal t⟩
  · intro hv
    have hv0 : hget (passiveExpire ro now o).1.hash f = none :=
      passiveExpire_hget_none hv
    unfold TairHashTypeHsetNx_RedisCommand
    dsimp only
    simp only [hv0]
    refine ⟨trivial, _, rfl, ?_⟩
    rw [hget_hadd]
    simp only [hv0]
    rw [if_pos (trivial : True)]

/-- C9: witness — EXHSETNX against a present field is a no-op replying 0,
and against an absent field creates (value, version 0, expire 0). -/
theorem c9_exhsetnx_frame_witness :
    (TairHashTypeHsetNx_RedisCommand false 100
      (some { key := "k", hash := [("f", ⟨"v", 4, 0⟩)], expire_index := [],
              gindex := none }) "k" "f" "w").2.1 = Reply.int 0 ∧
    (TairHashTypeHsetNx_RedisCommand false 100
      (some { key := "k", hash := [("f", ⟨"v", 4, 0⟩)], expire_index := [],
              gindex := none }) "k" "g" "w").2.1 = Reply.int 1 := by
  have h1 := (c9_exhsetnx_frame false 100
    { key := "k", hash := [("f", ⟨"v", 4, 0⟩)], expire_index := [], gindex := none }
    "k" "f" "w" (checkInv_sound (by decide))).1 ⟨"v", 4, 0⟩ (by decide) (by decide)
  have h2 := (c9_exhsetnx_frame false 100
    { key := "k", hash := [("f", ⟨"v", 4, 0⟩)], expire_index := [], gindex := none }
    "k" "g" "w" (checkInv_sound (by decide))).2 (by decide)
  exact ⟨h1.1, h2.1⟩

end TairHash
